import Mathlib

/-!
Verification of the alphaMELTS table-reading module
(`pyrolite/ext/alphamelts/tables.py`).

The Python module is shallowly embedded: a pandas `DataFrame` becomes a list
of named columns of cells, the file system becomes an association list from
file names to file contents, and the mutable `MeltsOutput` object becomes an
explicit state record threaded through the loaders.  Exceptions are modelled
with `Except`: a loader returns the state as mutated so far together with
either a result or the raised error, exactly mirroring the fact that Python
exceptions do not roll back earlier attribute mutations.

Numeric cells are modelled as rationals; pandas missing values (NaN) are a
separate `Cell.nan` constructor and string cells are `Cell.str`.
-/

namespace Melts

/-- Errors that the embedded Python code can raise. -/
inductive Err where
  | fileNotFound
  | emptyData
  | tokenizeError
  | typeError
  | valueError
  | indexError
deriving DecidableEq, Repr

/-- A single table cell: a number, a string, or a missing value (NaN). -/
inductive Cell where
  | num (q : ℚ)
  | str (s : String)
  | nan
deriving DecidableEq, Repr

/-- A named column of a table. -/
structure Column where
  name : String
  cells : List Cell
deriving DecidableEq, Repr

/-- A pandas DataFrame: an ordered list of named columns. -/
abbrev DF := List Column

/-- The contents of one experiment directory: file name to file text. -/
abbrev FS := List (String × String)

/-- `open(path)` on the directory: the content of the named file, if present. -/
def lookupFS (fs : FS) (n : String) : Option String :=
  (fs.find? (fun p => decide (p.1 = n))).map Prod.snd

/-! ### Python `dict` as an insertion-ordered association list

`dictInsert` follows Python assignment semantics: assigning to an existing
key replaces the value in place (keeping the original position), assigning
to a new key appends at the end. -/

section Dict

variable {K V : Type} [DecidableEq K]

def dictKeys (d : List (K × V)) : List K := d.map Prod.fst

def dictInsert : List (K × V) → K → V → List (K × V)
  | [], k, v => [(k, v)]
  | p :: rest, k, v => if p.1 = k then (k, v) :: rest else p :: dictInsert rest k v

def dictLookup : List (K × V) → K → Option V
  | [], _ => none
  | p :: rest, k => if p.1 = k then some p.2 else dictLookup rest k

theorem dictLookup_eq_none_iff (d : List (K × V)) (k : K) :
    dictLookup d k = none ↔ k ∉ dictKeys d := by
  induction d with
  | nil => simp [dictLookup, dictKeys]
  | cons p rest ih =>
    by_cases h : p.1 = k
    · simp [dictLookup, dictKeys, h]
    · simp only [dictLookup, h, if_false, dictKeys, List.map_cons, List.mem_cons]
      rw [ih]
      constructor
      · intro hk hor
        rcases hor with hor | hor
        · exact h hor.symm
        · exact hk hor
      · intro hk
        exact fun hm => hk (Or.inr hm)

theorem dictLookup_insert (d : List (K × V)) (k j : K) (v : V) :
    dictLookup (dictInsert d k v) j =
      if j = k then some v else dictLookup d j := by
  induction d with
  | nil =>
    by_cases h : j = k
    · simp [dictInsert, dictLookup, h]
    · have h2 : ¬ k = j := fun hh => h hh.symm
      simp [dictInsert, dictLookup, h, h2]
  | cons p rest ih =>
    by_cases hp : p.1 = k
    · by_cases hj : j = k
      · simp [dictInsert, dictLookup, hp, hj]
      · have hkj : ¬ k = j := fun hh => hj hh.symm
        have hpj : ¬ p.1 = j := fun hh => hj (by rw [← hh, hp])
        simp [dictInsert, dictLookup, hp, hj, hkj, hpj]
    · by_cases hj : p.1 = j
      · have hjk : ¬ j = k := fun hh => hp (by rw [hj, hh])
        simp [dictInsert, dictLookup, hp, hj, hjk]
      · simp [dictInsert, dictLookup, hp, hj, ih]

theorem dictKeys_insert (d : List (K × V)) (k : K) (v : V) :
    dictKeys (dictInsert d k v) =
      if k ∈ dictKeys d then dictKeys d else dictKeys d ++ [k] := by
  induction d with
  | nil => simp [dictInsert, dictKeys]
  | cons p rest ih =>
    by_cases hp : p.1 = k
    · have hm : k ∈ dictKeys (p :: rest) := by simp [dictKeys, hp.symm]
      rw [if_pos hm]
      have e1 : dictInsert (p :: rest) k v = (k, v) :: rest := by
        simp [dictInsert, hp]
      rw [e1]
      simp [dictKeys, hp]
    · have hkp : ¬ k = p.1 := fun hh => hp hh.symm
      have e1 : dictInsert (p :: rest) k v = p :: dictInsert rest k v := by
        simp [dictInsert, hp]
      rw [e1]
      have e2 : dictKeys (p :: dictInsert rest k v) = p.1 :: dictKeys (dictInsert rest k v) := rfl
      have e3 : dictKeys (p :: rest) = p.1 :: dictKeys rest := rfl
      rw [e2, e3, ih]
      by_cases hk : k ∈ dictKeys rest
      · have hm : k ∈ p.1 :: dictKeys rest := by simp [hk]
        rw [if_pos hk, if_pos hm]
      · have hm : k ∉ p.1 :: dictKeys rest := by
          intro hc
          rcases List.mem_cons.mp hc with hc | hc
          · exact hkp hc
          · exact hk hc
        rw [if_neg hk, if_neg hm]
        simp

theorem dictKeys_insert_nodup (d : List (K × V)) (k : K) (v : V)
    (h : (dictKeys d).Nodup) : (dictKeys (dictInsert d k v)).Nodup := by
  rw [dictKeys_insert]
  by_cases hk : k ∈ dictKeys d
  · simpa [hk] using h
  · rw [if_neg hk, List.nodup_append]
    refine ⟨h, List.nodup_singleton k, ?_⟩
    intro a ha hb
    simp only [List.mem_singleton] at hb
    subst hb
    exact hk ha

theorem dictInsert_of_not_mem (d : List (K × V)) (k : K) (v : V)
    (h : k ∉ dictKeys d) : dictInsert d k v = d ++ [(k, v)] := by
  induction d with
  | nil => rfl
  | cons p rest ih =>
    have hp : ¬ p.1 = k := by
      intro hh; exact h (by simp [dictKeys, hh])
    have hrest : k ∉ dictKeys rest := by
      intro hh; exact h (by simp [dictKeys] at hh ⊢; exact Or.inr hh)
    simp [dictInsert, hp, ih hrest]

/-- Inserting bindings with fresh, pairwise distinct keys just appends them. -/
theorem foldl_dictInsert_of_nodup (entries : List (K × V)) :
    ∀ d : List (K × V), (dictKeys (d ++ entries)).Nodup →
      entries.foldl (fun acc e => dictInsert acc e.1 e.2) d = d ++ entries := by
  induction entries with
  | nil => intro d _; simp
  | cons e rest ih =>
    intro d hnd
    have hkeys : dictKeys (d ++ e :: rest) = dictKeys d ++ e.1 :: dictKeys rest := by
      simp [dictKeys]
    have hnd1 : (dictKeys d ++ e.1 :: dictKeys rest).Nodup := by rw [← hkeys]; exact hnd
    rcases List.nodup_append.mp hnd1 with ⟨hd, hr, hdis⟩
    have hmem : e.1 ∉ dictKeys d := fun hm => hdis hm (by simp)
    have hstep : dictInsert d e.1 e.2 = d ++ [e] := by
      rw [dictInsert_of_not_mem d e.1 e.2 hmem]
    have hnd2 : (dictKeys ((d ++ [e]) ++ rest)).Nodup := by
      have heq : dictKeys ((d ++ [e]) ++ rest) = dictKeys d ++ e.1 :: dictKeys rest := by
        simp [dictKeys]
      rw [heq]; exact hnd1
    rw [List.foldl_cons]
    show rest.foldl (fun acc x => dictInsert acc x.1 x.2) (dictInsert d e.1 e.2) = d ++ e :: rest
    rw [hstep, ih (d ++ [e]) hnd2]
    simp

/-- `List.find?` over an append scans the left part first. -/
theorem find?_append {α : Type} (l₁ l₂ : List α) (p : α → Bool) :
    (l₁ ++ l₂).find? p =
      match l₁.find? p with
      | some a => some a
      | none => l₂.find? p := by
  induction l₁ with
  | nil => simp
  | cons a l₁ ih =>
    by_cases h : p a
    · simp [List.find?, h]
    · simp only [List.cons_append, List.find?]
      rw [Bool.not_eq_true] at h
      simp [h, ih]

/-- Looking a key up after a fold of insertions: the binding written by the
last matching element wins; absent keys fall through to the accumulator. -/
theorem foldl_insert_lookup {D : Type} (key : D → K) (val : D → V)
    (ds : List D) : ∀ (acc : List (K × V)) (t : K),
    dictLookup (ds.foldl (fun a d => dictInsert a (key d) (val d)) acc) t =
      match ds.reverse.find? (fun d => decide (key d = t)) with
      | some d => some (val d)
      | none => dictLookup acc t := by
  induction ds with
  | nil => intro acc t; simp
  | cons d ds ih =>
    intro acc t
    have hrev : (d :: ds).reverse = ds.reverse ++ [d] := by simp
    rw [List.foldl_cons, ih, hrev, find?_append]
    cases hfind : ds.reverse.find? (fun x => decide (key x = t)) with
    | some x => rfl
    | none =>
      by_cases hkt : key d = t
      · simp [hkt, dictLookup_insert]
      · have : ¬ t = key d := fun hh => hkt hh.symm
        simp [hkt, this, dictLookup_insert]

/-- Keys stay duplicate-free under repeated insertion. -/
theorem foldl_insert_keys_nodup {D : Type} (key : D → K) (val : D → V)
    (ds : List D) : ∀ acc : List (K × V), (dictKeys acc).Nodup →
    (dictKeys (ds.foldl (fun a d => dictInsert a (key d) (val d)) acc)).Nodup := by
  induction ds with
  | nil => intro acc h; simpa using h
  | cons d ds ih =>
    intro acc h
    exact ih _ (dictKeys_insert_nodup acc (key d) (val d) h)

end Dict

/-! ### Rational arithmetic wrappers

The `Rat` operations of the ambient library (`Rat.add`, `Rat.sub`, `Rat.mul`,
`Rat.ofScientific`) are marked irreducible, so concrete runs of the embedded
code could not be checked by evaluation through them.  The embedding
therefore computes with equivalent `mkRat` / `Rat.divInt` forms; the bridge
lemmas right after the definitions prove them equal to the standard field
operations, which the claim statements use. -/

def qAdd (a b : ℚ) : ℚ := Rat.divInt (a.num * b.den + b.num * a.den) (a.den * b.den)

def qSub (a b : ℚ) : ℚ := Rat.divInt (a.num * b.den - b.num * a.den) (a.den * b.den)

def qDiv (a b : ℚ) : ℚ := Rat.divInt (a.num * b.den) (a.den * b.num)

def qNeg (a : ℚ) : ℚ := Rat.divInt (-a.num) a.den

/-- 273.15, the Kelvin/Celsius offset. -/
def tempOffset : ℚ := mkRat 27315 100

/-! ### Cell parsing

`pd.read_csv` turns each whitespace-separated token into a float where
possible; empty fields become NaN and anything else stays a string.  Decimal
literals (optionally signed, optionally with a fractional part) are the only
numeric format appearing in the table files. -/

def digitsVal (cs : List Char) : Nat :=
  cs.foldl (fun a c => a * 10 + (c.toNat - 48)) 0

def allDigits (cs : List Char) : Bool :=
  cs.all (fun c => c.isDigit)

def parseDecimalCore (ds : List Char) : Option ℚ :=
  let ip := ds.takeWhile (fun c => c ≠ '.')
  let rest := ds.dropWhile (fun c => c ≠ '.')
  match rest with
  | [] =>
    if (!ip.isEmpty) && allDigits ip then some ((digitsVal ip : ℚ)) else none
  | _ :: fp =>
    if (!(ip.isEmpty && fp.isEmpty)) && allDigits ip && allDigits fp then
      some (mkRat (digitsVal ip * 10 ^ fp.length + digitsVal fp) (10 ^ fp.length))
    else none

def parseDecimal (s : String) : Option ℚ :=
  match s.data with
  | '-' :: rest => (parseDecimalCore rest).map qNeg
  | cs => parseDecimalCore cs

/-! ### Structural string utilities

The string functions of the ambient library (`String.splitOn`,
`String.split`, `String.replace`, `String.trim`) are implemented by
well-founded recursion and do not evaluate inside proofs, so the embedding
carries its own structurally recursive versions of the Python string
operations the module uses. -/

/-- Python `s.split(sep)` for a one-character separator (and `re.split` on a
character class): split at every matching character, keeping empty pieces. -/
def splitPred (p : Char → Bool) : List Char → List (List Char)
  | [] => [[]]
  | c :: rest =>
    if p c then [] :: splitPred p rest
    else
      match splitPred p rest with
      | [] => [[c]]
      | g :: gs => (c :: g) :: gs

/-- Python `s.split("\n\n")`: split at each non-overlapping double newline,
scanning left to right. -/
def splitDoubleNL : List Char → List (List Char)
  | '\n' :: '\n' :: rest => [] :: splitDoubleNL rest
  | c :: rest =>
    match splitDoubleNL rest with
    | [] => [[c]]
    | g :: gs => (c :: g) :: gs
  | [] => [[]]

/-- Python `s.replace("Title: ", "")`: drop every non-overlapping occurrence
of the seven-character pattern. -/
def stripTitleAll : List Char → List Char
  | 'T' :: 'i' :: 't' :: 'l' :: 'e' :: ':' :: ' ' :: rest => stripTitleAll rest
  | c :: rest => c :: stripTitleAll rest
  | [] => []

/-- Python `s.strip()`. -/
def trimChars (cs : List Char) : List Char :=
  ((cs.dropWhile (fun c => c.isWhitespace)).reverse.dropWhile
    (fun c => c.isWhitespace)).reverse

def pySplitChar (sep : Char) (s : String) : List String :=
  (splitPred (fun c => c = sep) s.data).map String.mk

def pySplitLines (s : String) : List String := pySplitChar '\n' s

def pySplitNLCR (s : String) : List String :=
  (splitPred (fun c => c = '\n' || c = '\r') s.data).map String.mk

/-- Python `s.split()` with no argument: split on whitespace runs, with no
empty pieces. -/
def pySplitWhitespace (s : String) : List String :=
  ((splitPred (fun c => c.isWhitespace) s.data).map String.mk).filter
    (fun t => t ≠ "")

def pySplitDoubleNL (s : String) : List String :=
  (splitDoubleNL s.data).map String.mk

def pyStripTitle (s : String) : String := String.mk (stripTitleAll s.data)

def pyTrim (s : String) : String := String.mk (trimChars s.data)

def parseCell (tok : String) : Cell :=
  if tok = "" then Cell.nan
  else
    match parseDecimal tok with
    | some q => Cell.num q
    | none => Cell.str tok

/-! ### `pd.read_csv(filepath, sep=" ", skiprows=k)`

Lines are split on newlines; the first `skiprows` physical lines are
discarded and blank lines are skipped (`skip_blank_lines` default).  The
first remaining line is the header; a data row with more fields than the
header is a tokenizer error, one with fewer fields is padded with NaN. -/

def readCsv (content : String) (skiprows : Nat) : Except Err DF :=
  let lines := pySplitLines content
  let rest := (lines.drop skiprows).filter (fun l => l ≠ "")
  match rest with
  | [] => .error .emptyData
  | header :: dataLines =>
    let names := pySplitChar ' ' header
    match dataLines.mapM (fun l =>
        let toks := pySplitChar ' ' l
        if toks.length > names.length then Except.error Err.tokenizeError
        else Except.ok (toks.map parseCell)) with
    | .error e => .error e
    | .ok rows =>
      .ok (names.enum.map (fun p => ⟨p.2, rows.map (fun r => r.getD p.1 Cell.nan)⟩))

/-! ### DataFrame operations used by `read_table` -/

/-- `df.columns` membership / first column of a given name. -/
def colCells (df : DF) (n : String) : Option (List Cell) :=
  (df.find? (fun c => decide (c.name = n))).map Column.cells

def hasCol (df : DF) (n : String) : Bool :=
  df.any (fun c => decide (c.name = n))

/-- `df.dropna(how="all", axis=1)`: drop the columns all of whose cells are
missing. -/
def dropAllNanCols (df : DF) : DF :=
  df.filter (fun c => !(c.cells.all (fun x => decide (x = Cell.nan))))

/-- `df.Temperature -= 273.15` on one cell.  Subtracting a float from a
string cell raises a `TypeError`; NaN stays NaN. -/
def tempShiftCell : Cell → Except Err Cell
  | Cell.num q => .ok (Cell.num (qSub q tempOffset))
  | Cell.nan => .ok Cell.nan
  | Cell.str _ => .error .typeError

/-- `if ("Temperature" in df.columns) and not self.kelvin: df.Temperature -= 273.15` -/
def tempConvertDF (kelvin : Bool) (df : DF) : Except Err DF :=
  if hasCol df "Temperature" && !kelvin then
    df.mapM (fun c =>
      if c.name = "Temperature" then
        (c.cells.mapM tempShiftCell).map (fun cs => Column.mk c.name cs)
      else Except.ok c)
  else .ok df

/-- Modelled from the spec: `zero_to_nan` (from `pyrolite.util.pd`, whose
source is not part of this excerpt) performs "zero-to-NaN normalization":
numeric zero is a missing-value sentinel and becomes NaN. -/
def zeroToNanCell : Cell → Cell
  | Cell.num q => if q = 0 then Cell.nan else Cell.num q
  | c => c

def zeroToNan (df : DF) : DF :=
  df.map (fun c => Column.mk c.name (c.cells.map zeroToNanCell))

/-- Modelled from the spec: standard molar masses used by the Mg-number
("standard molar magnesium / (magnesium + iron) ratio"). -/
def mwMgO : ℚ := mkRat 403044 10000

def mwFeO : ℚ := mkRat 71844 1000

/-- Modelled from the spec: the Mg-number of one row, the molar ratio
MgO / (MgO + FeO).  Non-numeric inputs give a missing value. -/
def mgnoCell : Cell → Cell → Cell
  | Cell.num a, Cell.num b =>
    let ma := qDiv a mwMgO
    let mb := qDiv b mwFeO
    if qAdd ma mb = 0 then Cell.nan else Cell.num (qDiv ma (qAdd ma mb))
  | _, _ => Cell.nan

/-- Modelled from the spec: `add_MgNo` (from `pyrolite.geochem.transform`,
whose source is not part of this excerpt) derives and appends an Mg-number
column from the "MgO" and "FeO" columns. -/
def addMgNo (df : DF) : DF :=
  df ++ [Column.mk "Mg#"
    (List.zipWith mgnoCell ((colCells df "MgO").getD []) ((colCells df "FeO").getD []))]

/-! ### The `MeltsOutput` object

Attribute slots hold `Option DF`: `some df` is a DataFrame, `none` is the
Python value `None` (a loader that falls off its end returns `None`).  The
eight slots do not exist before `__init__` runs its loop; they are
initialised here to `none`, which is unobservable because the loop assigns
every slot exactly once. -/

structure MeltsState where
  title : Option String
  kelvin : Bool
  phasenames : List String
  majors : List String
  traces : List String
  phases : List (String × DF)
  bulkcomp : Option DF
  solidcomp : Option DF
  liquidcomp : Option DF
  phasemass : Option DF
  phasevol : Option DF
  tracecomp : Option DF
  system : Option DF
  phasemain : Option DF
deriving DecidableEq, Repr

def initState (kelvin : Bool) : MeltsState :=
  { title := none, kelvin := kelvin, phasenames := [], majors := [], traces := []
  , phases := [], bulkcomp := none, solidcomp := none, liquidcomp := none
  , phasemass := none, phasevol := none, tracecomp := none, system := none
  , phasemain := none }

/-- `_set_title`: the first title wins; a later conflicting title is only
logged. -/
def setTitle (st : MeltsState) (t : String) : MeltsState :=
  match st.title with
  | none => { st with title := some t }
  | some _ => st

/-- Python `set` union, as a duplicate-free list (iteration order of Python
sets is unspecified; only membership matters). -/
def listUnion (a b : List String) : List String := (a ++ b).dedup

/-- In the source, `if path.exists and path.is_file:` tests the two *bound
method objects* (the calls are missing), and a bound method is always
truthy, so the condition is identically `True` and the `else` branch that
logs and returns `None` is dead code. -/
def pathCheckAlwaysTrue : Bool := true

/-- `MeltsOutput.read_table`.  Returns the mutated state (the title is set
by `_get_table_title` before any parse error can fire) together with the
DataFrame, the Python `None` of the dead branch, or the raised error. -/
def readTableM (fs : FS) (st : MeltsState) (path : String) (skiprows : Nat) :
    MeltsState × Except Err (Option DF) :=
  if pathCheckAlwaysTrue then
    match lookupFS fs path with
    | none => (st, .error .fileNotFound)
    | some content =>
      let firstLine := (pySplitLines content).headD ""
      let title := pyTrim (pyStripTitle firstLine)
      let st1 := setTitle st title
      match readCsv content skiprows with
      | .error e => (st1, .error e)
      | .ok df0 =>
        let df1 := dropAllNanCols df0
        match tempConvertDF st1.kelvin df1 with
        | .error e => (st1, .error e)
        | .ok df2 =>
          let df3 := if hasCol df2 "MgO" && hasCol df2 "FeO" then addMgNo df2 else df2
          (st1, .ok (some df3))
  else
    (st, .ok none)

/-- `_read_bulkcomp` / `_read_solidcomp` / `_read_liquidcomp` /
`_read_systemmain` (four textually identical methods): `read_table` with
`skiprows=3` followed by `zero_to_nan`.  The `.ok none` case is the dead
branch of `read_table`; `zero_to_nan(None)` is unreachable and modelled as
`None`. -/
def readCompTable (fs : FS) (st : MeltsState) (path : String) :
    MeltsState × Except Err (Option DF) :=
  match readTableM fs st path 3 with
  | (st1, .error e) => (st1, .error e)
  | (st1, .ok none) => (st1, .ok none)
  | (st1, .ok (some df)) => (st1, .ok (some (zeroToNan df)))

/-- The four structural column names excluded from phase-name discovery. -/
def structuralCols : List String := ["Pressure", "Temperature", "mass", "V"]

/-- `_read_phasemass` / `_read_phasevol`: additionally accumulate the
non-structural column names into `self.phasenames`. -/
def readPhaseTable (fs : FS) (st : MeltsState) (path : String) :
    MeltsState × Except Err (Option DF) :=
  match readTableM fs st path 3 with
  | (st1, .error e) => (st1, .error e)
  | (st1, .ok none) => (st1, .ok none)
  | (st1, .ok (some df)) =>
    let table := zeroToNan df
    let names := (table.map Column.name).filter (fun i => decide (i ∉ structuralCols))
    ({ st1 with phasenames := listUnion st1.phasenames names }, .ok (some table))

/-- `_read_trace` is `pass`: it ignores the path and returns `None`. -/
def readTrace (_fs : FS) (st : MeltsState) (_path : String) :
    MeltsState × Except Err (Option DF) :=
  (st, .ok none)

/-! ### `_read_phasemain` -/

/-- `re.split(r"[\n\r]", tab)` -/
def blockLines (tab : String) : List String :=
  pySplitNLCR tab

/-- `lines[0].split()[0].strip()`: `None` models the `IndexError` raised on a
blank first line. -/
def blockPhaseName (tab : String) : Option String :=
  match pySplitWhitespace ((blockLines tab).headD "") with
  | [] => none
  | tok :: _ => some (pyTrim tok)

/-- `"\n".join(lines[1:])` -/
def blockBody (tab : String) : String :=
  String.intercalate "\n" ((blockLines tab).drop 1)

/-- One block of `Phase_main_tbl.txt`: phase name from the first token of the
first line, then `read_csv`, `zero_to_nan`, the `formula` rewrite with
`from_melts_cstr` (an external parser kept abstract as `fmc`), and the
temperature conversion. -/
def processBlock (kelvin : Bool) (fmc : Cell → Cell) (tab : String) :
    Except Err (String × DF) :=
  match blockPhaseName tab with
  | none => .error .indexError
  | some phase =>
    match readCsv (blockBody tab) 0 with
    | .error e => .error e
    | .ok t0 =>
      let t1 := zeroToNan t0
      let t2 :=
        if hasCol t1 "formula" then
          t1.map (fun c => if c.name = "formula" then Column.mk c.name (c.cells.map fmc) else c)
        else t1
      match tempConvertDF kelvin t2 with
      | .error e => .error e
      | .ok t3 => .ok (phase, t3)

/-- The loop body of `_read_phasemain`: each fully parsed block is written
into `self.phases` before the next one is attempted, so an error in block k
keeps the entries of blocks 0..k-1. -/
def processBlocks (fmc : Cell → Cell) : List String → MeltsState →
    MeltsState × Except Err (Option DF)
  | [], st => (st, .ok none)
  | tab :: rest, st =>
    match processBlock st.kelvin fmc tab with
    | .error e => (st, .error e)
    | .ok pt => processBlocks fmc rest { st with phases := dictInsert st.phases pt.1 pt.2 }

/-- `_read_phasemain`: split the raw text on a double newline, discard the
first segment, process the remaining blocks in order.  The method has no
`return`, so it yields `None` on success. -/
def readPhasemain (fmc : Cell → Cell) (fs : FS) (st : MeltsState) (path : String) :
    MeltsState × Except Err (Option DF) :=
  match lookupFS fs path with
  | none => (st, .error .fileNotFound)
  | some content => processBlocks fmc ((pySplitDoubleNL content).drop 1) st

/-! ### `MeltsOutput.__init__`: the fixed eight-slot load loop -/

inductive Slot where
  | bulkcomp | solidcomp | liquidcomp | phasemass | phasevol | tracecomp
  | system | phasemain
deriving DecidableEq, Repr

def slotFile : Slot → String
  | .bulkcomp => "Bulk_comp_tbl.txt"
  | .solidcomp => "Solid_comp_tbl.txt"
  | .liquidcomp => "Liquid_comp_tbl.txt"
  | .phasemass => "Phase_mass_tbl.txt"
  | .phasevol => "Phase_vol_tbl.txt"
  | .tracecomp => "Trace_main_tbl.txt"
  | .system => "System_main_tbl.txt"
  | .phasemain => "Phase_main_tbl.txt"

def slotLoad (fmc : Cell → Cell) (fs : FS) (st : MeltsState) :
    Slot → MeltsState × Except Err (Option DF)
  | .bulkcomp => readCompTable fs st (slotFile .bulkcomp)
  | .solidcomp => readCompTable fs st (slotFile .solidcomp)
  | .liquidcomp => readCompTable fs st (slotFile .liquidcomp)
  | .phasemass => readPhaseTable fs st (slotFile .phasemass)
  | .phasevol => readPhaseTable fs st (slotFile .phasevol)
  | .tracecomp => readTrace fs st (slotFile .tracecomp)
  | .system => readCompTable fs st (slotFile .system)
  | .phasemain => readPhasemain fmc fs st (slotFile .phasemain)

def setSlot (st : MeltsState) : Slot → Option DF → MeltsState
  | .bulkcomp, v => { st with bulkcomp := v }
  | .solidcomp, v => { st with solidcomp := v }
  | .liquidcomp, v => { st with liquidcomp := v }
  | .phasemass, v => { st with phasemass := v }
  | .phasevol, v => { st with phasevol := v }
  | .tracecomp, v => { st with tracecomp := v }
  | .system, v => { st with system := v }
  | .phasemain, v => { st with phasemain := v }

def getSlot (st : MeltsState) : Slot → Option DF
  | .bulkcomp => st.bulkcomp
  | .solidcomp => st.solidcomp
  | .liquidcomp => st.liquidcomp
  | .phasemass => st.phasemass
  | .phasevol => st.phasevol
  | .tracecomp => st.tracecomp
  | .system => st.system
  | .phasemain => st.phasemain

/-- One iteration of the `__init__` loop: `setattr(self, name, load(tpath))`
under a bare `except` that logs and assigns `pd.DataFrame()`. -/
def loadSlot (fmc : Cell → Cell) (fs : FS) (st : MeltsState) (s : Slot) : MeltsState :=
  match slotLoad fmc fs st s with
  | (st1, .ok v) => setSlot st1 s v
  | (st1, .error _) => setSlot st1 s (some ([] : DF))

def slotOrder : List Slot :=
  [.bulkcomp, .solidcomp, .liquidcomp, .phasemass, .phasevol, .tracecomp,
   .system, .phasemain]

/-- `MeltsOutput(directory, kelvin)`. -/
def meltsOutput (fmc : Cell → Cell) (fs : FS) (kelvin : Bool) : MeltsState :=
  slotOrder.foldl (loadSlot fmc fs) (initState kelvin)

/-! ### `get_experiments_summary` and `write_summary_phaselist` -/

/-- Python `str.find`: index of the first occurrence of `sub`, as a `Nat`
(`none` when absent; Python returns -1 then). -/
def findSubIdx (sub : List Char) : List Char → Option Nat
  | [] => if sub.isPrefixOf ([] : List Char) then some 0 else none
  | c :: rest =>
    if sub.isPrefixOf (c :: rest) then some 0
    else (findSubIdx sub rest).map (fun n => n + 1)

def pyFind (s : String) (sub : String) : Int :=
  match findSubIdx sub.data s.data with
  | some n => (n : Int)
  | none => -1

/-- `i[: i.find("_")] if i.find("_") > 0 else i` -/
def reducePhase (i : String) : String :=
  if pyFind i "_" > 0 then String.mk (i.data.take (pyFind i "_").toNat) else i

/-- The per-experiment `{"phases": ..., "output": ...}` record. -/
structure SummaryEntry where
  phases : List String
  output : MeltsState
deriving DecidableEq, Repr

abbrev Summary := List (Option String × SummaryEntry)

/-- The argument of `get_experiments_summary`: either an explicit list of
experiment directories or a parent directory whose subdirectories (with
their names) are the experiments. -/
inductive DirsArg where
  | dirs (ds : List FS)
  | parent (p : List (String × FS))

def targetFolders : DirsArg → List FS
  | .dirs ds => ds
  | .parent p => p.map Prod.snd

/-- The loop body: build the output, then write the title-keyed entry (the
three Python assignments amount to inserting the complete record). -/
def summaryStep (fmc : Cell → Cell) (kelvin : Bool) (acc : Summary) (d : FS) : Summary :=
  let output := meltsOutput fmc d kelvin
  dictInsert acc output.title
    (SummaryEntry.mk ((output.phasenames.map reducePhase).dedup) output)

def getExperimentsSummary (arg : DirsArg) (kelvin : Bool) (fmc : Cell → Cell) : Summary :=
  (targetFolders arg).foldl (summaryStep fmc kelvin) []

def padSpaces (n : Nat) : String := String.mk (List.replicate n ' ')

/-- `write_summary_phaselist(dir=None, summary=None, filename="phaselist.txt")`.
Returns the text written to `dir / filename`, or the error raised:
`Path(None)` and `None / filename` are `TypeError`s, `max([])` is a
`ValueError`, `len(None)` on a `None` title key is a `TypeError`.  The
maximum title length is computed *before* the output path is formed. -/
def writeSummaryPhaselist (fmc : Cell → Cell) (dirOpt : Option (List (String × FS)))
    (summaryOpt : Option Summary) (filename : String) : Except Err String :=
  match (match summaryOpt with
         | some s => Except.ok s
         | none =>
           match dirOpt with
           | none => Except.error Err.typeError
           | some parent =>
             Except.ok (getExperimentsSummary (DirsArg.parent parent) false fmc)) with
  | .error e => .error e
  | .ok summary =>
    match summary.mapM (fun p =>
        match p.1 with
        | some n => Except.ok n.length
        | none => Except.error Err.typeError) with
    | .error e => .error e
    | .ok lens =>
      match lens with
      | [] => .error .valueError
      | l :: ls =>
        let mnl := ls.foldl max l
        match dirOpt with
        | none => .error .typeError
        | some _ =>
          let _ := filename
          .ok (String.intercalate "\n" (summary.map (fun p =>
            (p.1.getD "") ++ padSpaces (mnl - (p.1.getD "").length + 2)
              ++ String.intercalate ", " p.2.phases)))

/-- The identity cell transformation, used to instantiate the abstract
`from_melts_cstr` parameter at concrete witnesses. -/
def cellId : Cell → Cell := fun c => c

/-! ### Observation helpers used by the claim statements -/

def exceptIsOk {α : Type} : Except Err α → Bool
  | .ok _ => true
  | .error _ => false

/-- The named column of the DataFrame returned by a `read_table`-style call
(`none` when the call raised or returned `None`, or the column is absent). -/
def resultCol (r : MeltsState × Except Err (Option DF)) (n : String) :
    Option (List Cell) :=
  match r.2 with
  | .ok (some df) => colCells df n
  | _ => none

/-- Whether the DataFrame returned by a `read_table`-style call has a column
of the given name. -/
def resultHasCol (r : MeltsState × Except Err (Option DF)) (n : String) :
    Option Bool :=
  match r.2 with
  | .ok (some df) => some (hasCol df n)
  | _ => none

/-- The phase name produced by one `_read_phasemain` block. -/
def blockName (r : Except Err (String × DF)) : Option String :=
  match r with
  | .ok pt => some pt.1
  | .error _ => none

/-- The named column of the table produced by one `_read_phasemain` block. -/
def blockCol (r : Except Err (String × DF)) (n : String) : Option (List Cell) :=
  match r with
  | .ok pt => colCells pt.2 n
  | .error _ => none

/-- The truncation function described by the claim: cut the phase name at
its first underscore (`takeWhile`), whatever its position. -/
def truncAtUnderscore (p : String) : String :=
  String.mk (p.data.takeWhile (fun c => c ≠ '_'))

/-- The amended reduction: cut at the first underscore only when that
underscore sits at a positive index; a name with no underscore, or whose
first character is an underscore, passes through unchanged. -/
def specReduceAmended (p : String) : String :=
  match p.data with
  | '_' :: _ => p
  | _ => String.mk (p.data.takeWhile (fun c => c ≠ '_'))

/-- The Mg-number formula in standard field operations, for the claim
statement: molar MgO over molar MgO plus molar FeO, with the molar masses
40.3044 (MgO) and 71.844 (FeO). -/
def specMgnoCell : Cell → Cell → Cell
  | Cell.num a, Cell.num b =>
    if a / (403044 / 10000 : ℚ) + b / (71844 / 1000 : ℚ) = 0 then Cell.nan
    else Cell.num ((a / (403044 / 10000 : ℚ)) /
      (a / (403044 / 10000 : ℚ) + b / (71844 / 1000 : ℚ)))
  | _, _ => Cell.nan

/-- The key under which `get_experiments_summary` files one experiment: the
resolved title of its output. -/
def summaryKey (fmc : Cell → Cell) (kelvin : Bool) (d : FS) : Option String :=
  (meltsOutput fmc d kelvin).title

/-- The record `get_experiments_summary` stores for one experiment. -/
def summaryVal (fmc : Cell → Cell) (kelvin : Bool) (d : FS) : SummaryEntry :=
  SummaryEntry.mk (((meltsOutput fmc d kelvin).phasenames.map reducePhase).dedup)
    (meltsOutput fmc d kelvin)

/-! ## State-preservation lemmas

The loaders mutate only `title`, `phasenames` (phase tables) and `phases`
(`_read_phasemain`); no loader touches an attribute slot, and each loop
iteration of `__init__` writes exactly its own slot. -/

theorem getSlot_setSlot_self (st : MeltsState) (s : Slot) (v : Option DF) :
    getSlot (setSlot st s v) s = v := by
  cases s <;> rfl

theorem getSlot_setSlot_ne (st : MeltsState) (s1 s2 : Slot) (v : Option DF)
    (h : s1 ≠ s2) : getSlot (setSlot st s2 v) s1 = getSlot st s1 := by
  cases s1 <;> cases s2 <;> first | exact absurd rfl h | rfl

theorem setSlot_kelvin (st : MeltsState) (s : Slot) (v : Option DF) :
    (setSlot st s v).kelvin = st.kelvin := by
  cases s <;> rfl

theorem setSlot_phases (st : MeltsState) (s : Slot) (v : Option DF) :
    (setSlot st s v).phases = st.phases := by
  cases s <;> rfl

theorem setTitle_getSlot (st : MeltsState) (t : String) (s : Slot) :
    getSlot (setTitle st t) s = getSlot st s := by
  cases h : st.title <;> cases s <;> simp [setTitle, h, getSlot]

theorem setTitle_kelvin (st : MeltsState) (t : String) :
    (setTitle st t).kelvin = st.kelvin := by
  cases h : st.title <;> simp [setTitle, h]

theorem setTitle_phases (st : MeltsState) (t : String) :
    (setTitle st t).phases = st.phases := by
  cases h : st.title <;> simp [setTitle, h]

theorem setTitle_phasenames (st : MeltsState) (t : String) :
    (setTitle st t).phasenames = st.phasenames := by
  cases h : st.title <;> simp [setTitle, h]

/-- `read_table` mutates at most the title. -/
theorem readTableM_fst (fs : FS) (st : MeltsState) (path : String) (k : Nat) :
    (readTableM fs st path k).1 = st ∨
      ∃ t, (readTableM fs st path k).1 = setTitle st t := by
  unfold readTableM
  simp only [pathCheckAlwaysTrue, if_true]
  split
  · exact Or.inl rfl
  · split
    · exact Or.inr ⟨_, rfl⟩
    · split
      · exact Or.inr ⟨_, rfl⟩
      · exact Or.inr ⟨_, rfl⟩

theorem readTableM_getSlot (fs : FS) (st : MeltsState) (path : String) (k : Nat)
    (s : Slot) : getSlot (readTableM fs st path k).1 s = getSlot st s := by
  rcases readTableM_fst fs st path k with h | ⟨t, h⟩
  · rw [h]
  · rw [h, setTitle_getSlot]

theorem readTableM_kelvin (fs : FS) (st : MeltsState) (path : String) (k : Nat) :
    (readTableM fs st path k).1.kelvin = st.kelvin := by
  rcases readTableM_fst fs st path k with h | ⟨t, h⟩
  · rw [h]
  · rw [h, setTitle_kelvin]

theorem readTableM_phases (fs : FS) (st : MeltsState) (path : String) (k : Nat) :
    (readTableM fs st path k).1.phases = st.phases := by
  rcases readTableM_fst fs st path k with h | ⟨t, h⟩
  · rw [h]
  · rw [h, setTitle_phases]

theorem readCompTable_getSlot (fs : FS) (st : MeltsState) (path : String)
    (s : Slot) : getSlot (readCompTable fs st path).1 s = getSlot st s := by
  unfold readCompTable
  cases h : readTableM fs st path 3 with
  | mk st1 r =>
    have h1 : st1 = (readTableM fs st path 3).1 := by rw [h]
    cases r with
    | error e => simpa [h1] using readTableM_getSlot fs st path 3 s
    | ok v =>
      cases v with
      | none => simpa [h1] using readTableM_getSlot fs st path 3 s
      | some df => simpa [h1] using readTableM_getSlot fs st path 3 s

theorem readCompTable_kelvin (fs : FS) (st : MeltsState) (path : String) :
    (readCompTable fs st path).1.kelvin = st.kelvin := by
  unfold readCompTable
  cases h : readTableM fs st path 3 with
  | mk st1 r =>
    have h1 : st1 = (readTableM fs st path 3).1 := by rw [h]
    cases r with
    | error e => simpa [h1] using readTableM_kelvin fs st path 3
    | ok v =>
      cases v with
      | none => simpa [h1] using readTableM_kelvin fs st path 3
      | some df => simpa [h1] using readTableM_kelvin fs st path 3

theorem readCompTable_phases (fs : FS) (st : MeltsState) (path : String) :
    (readCompTable fs st path).1.phases = st.phases := by
  unfold readCompTable
  cases h : readTableM fs st path 3 with
  | mk st1 r =>
    have h1 : st1 = (readTableM fs st path 3).1 := by rw [h]
    cases r with
    | error e => simpa [h1] using readTableM_phases fs st path 3
    | ok v =>
      cases v with
      | none => simpa [h1] using readTableM_phases fs st path 3
      | some df => simpa [h1] using readTableM_phases fs st path 3

theorem readPhaseTable_getSlot (fs : FS) (st : MeltsState) (path : String)
    (s : Slot) : getSlot (readPhaseTable fs st path).1 s = getSlot st s := by
  unfold readPhaseTable
  cases h : readTableM fs st path 3 with
  | mk st1 r =>
    have h1 : st1 = (readTableM fs st path 3).1 := by rw [h]
    cases r with
    | error e => simpa [h1] using readTableM_getSlot fs st path 3 s
    | ok v =>
      cases v with
      | none => simpa [h1] using readTableM_getSlot fs st path 3 s
      | some df =>
        have : getSlot { st1 with
            phasenames := listUnion st1.phasenames
              (((zeroToNan df).map Column.name).filter (fun i => decide (i ∉ structuralCols))) } s
            = getSlot st1 s := by cases s <;> rfl
        simpa [this, h1] using readTableM_getSlot fs st path 3 s

theorem readPhaseTable_kelvin (fs : FS) (st : MeltsState) (path : String) :
    (readPhaseTable fs st path).1.kelvin = st.kelvin := by
  unfold readPhaseTable
  cases h : readTableM fs st path 3 with
  | mk st1 r =>
    have h1 : st1 = (readTableM fs st path 3).1 := by rw [h]
    cases r with
    | error e => simpa [h1] using readTableM_kelvin fs st path 3
    | ok v =>
      cases v with
      | none => simpa [h1] using readTableM_kelvin fs st path 3
      | some df => simpa [h1] using readTableM_kelvin fs st path 3

theorem readPhaseTable_phases (fs : FS) (st : MeltsState) (path : String) :
    (readPhaseTable fs st path).1.phases = st.phases := by
  unfold readPhaseTable
  cases h : readTableM fs st path 3 with
  | mk st1 r =>
    have h1 : st1 = (readTableM fs st path 3).1 := by rw [h]
    cases r with
    | error e => simpa [h1] using readTableM_phases fs st path 3
    | ok v =>
      cases v with
      | none => simpa [h1] using readTableM_phases fs st path 3
      | some df => simpa [h1] using readTableM_phases fs st path 3

theorem processBlocks_getSlot (fmc : Cell → Cell) (data : List String) :
    ∀ (st : MeltsState) (s : Slot),
      getSlot (processBlocks fmc data st).1 s = getSlot st s := by
  induction data with
  | nil => intro st s; rfl
  | cons tab rest ih =>
    intro st s
    unfold processBlocks
    cases processBlock st.kelvin fmc tab with
    | error e => rfl
    | ok pt =>
      have : getSlot { st with phases := dictInsert st.phases pt.1 pt.2 } s = getSlot st s := by
        cases s <;> rfl
      rw [ih, this]

theorem processBlocks_kelvin (fmc : Cell → Cell) (data : List String) :
    ∀ st : MeltsState, (processBlocks fmc data st).1.kelvin = st.kelvin := by
  induction data with
  | nil => intro st; rfl
  | cons tab rest ih =>
    intro st
    unfold processBlocks
    cases processBlock st.kelvin fmc tab with
    | error e => rfl
    | ok pt => rw [ih]

theorem readPhasemain_getSlot (fmc : Cell → Cell) (fs : FS) (st : MeltsState)
    (path : String) (s : Slot) :
    getSlot (readPhasemain fmc fs st path).1 s = getSlot st s := by
  unfold readPhasemain
  cases lookupFS fs path with
  | none => rfl
  | some content => exact processBlocks_getSlot fmc _ st s

theorem readPhasemain_kelvin (fmc : Cell → Cell) (fs : FS) (st : MeltsState)
    (path : String) : (readPhasemain fmc fs st path).1.kelvin = st.kelvin := by
  unfold readPhasemain
  cases lookupFS fs path with
  | none => rfl
  | some content => exact processBlocks_kelvin fmc _ st

theorem slotLoad_getSlot (fmc : Cell → Cell) (fs : FS) (st : MeltsState)
    (s2 s : Slot) : getSlot (slotLoad fmc fs st s2).1 s = getSlot st s := by
  cases s2 with
  | bulkcomp => exact readCompTable_getSlot fs st _ s
  | solidcomp => exact readCompTable_getSlot fs st _ s
  | liquidcomp => exact readCompTable_getSlot fs st _ s
  | phasemass => exact readPhaseTable_getSlot fs st _ s
  | phasevol => exact readPhaseTable_getSlot fs st _ s
  | tracecomp => rfl
  | system => exact readCompTable_getSlot fs st _ s
  | phasemain => exact readPhasemain_getSlot fmc fs st _ s

theorem slotLoad_kelvin (fmc : Cell → Cell) (fs : FS) (st : MeltsState)
    (s2 : Slot) : (slotLoad fmc fs st s2).1.kelvin = st.kelvin := by
  cases s2 with
  | bulkcomp => exact readCompTable_kelvin fs st _
  | solidcomp => exact readCompTable_kelvin fs st _
  | liquidcomp => exact readCompTable_kelvin fs st _
  | phasemass => exact readPhaseTable_kelvin fs st _
  | phasevol => exact readPhaseTable_kelvin fs st _
  | tracecomp => rfl
  | system => exact readCompTable_kelvin fs st _
  | phasemain => exact readPhasemain_kelvin fmc fs st _

theorem slotLoad_phases_ne_phasemain (fmc : Cell → Cell) (fs : FS)
    (st : MeltsState) (s2 : Slot) (h : s2 ≠ Slot.phasemain) :
    (slotLoad fmc fs st s2).1.phases = st.phases := by
  cases s2 with
  | bulkcomp => exact readCompTable_phases fs st _
  | solidcomp => exact readCompTable_phases fs st _
  | liquidcomp => exact readCompTable_phases fs st _
  | phasemass => exact readPhaseTable_phases fs st _
  | phasevol => exact readPhaseTable_phases fs st _
  | tracecomp => rfl
  | system => exact readCompTable_phases fs st _
  | phasemain => exact absurd rfl h

theorem loadSlot_getSlot_ne (fmc : Cell → Cell) (fs : FS) (st : MeltsState)
    (s2 s : Slot) (h : s ≠ s2) :
    getSlot (loadSlot fmc fs st s2) s = getSlot st s := by
  unfold loadSlot
  cases hl : slotLoad fmc fs st s2 with
  | mk st1 r =>
    have h1 : st1 = (slotLoad fmc fs st s2).1 := by rw [hl]
    cases r with
    | error e =>
      rw [getSlot_setSlot_ne _ _ _ _ h, h1, slotLoad_getSlot]
    | ok v =>
      rw [getSlot_setSlot_ne _ _ _ _ h, h1, slotLoad_getSlot]

theorem loadSlot_kelvin (fmc : Cell → Cell) (fs : FS) (st : MeltsState)
    (s2 : Slot) : (loadSlot fmc fs st s2).kelvin = st.kelvin := by
  unfold loadSlot
  cases hl : slotLoad fmc fs st s2 with
  | mk st1 r =>
    have h1 : st1 = (slotLoad fmc fs st s2).1 := by rw [hl]
    cases r with
    | error e => rw [setSlot_kelvin, h1, slotLoad_kelvin]
    | ok v => rw [setSlot_kelvin, h1, slotLoad_kelvin]

theorem loadSlot_phases_ne_phasemain (fmc : Cell → Cell) (fs : FS)
    (st : MeltsState) (s2 : Slot) (h : s2 ≠ Slot.phasemain) :
    (loadSlot fmc fs st s2).phases = st.phases := by
  unfold loadSlot
  cases hl : slotLoad fmc fs st s2 with
  | mk st1 r =>
    have h1 : st1 = (slotLoad fmc fs st s2).1 := by rw [hl]
    cases r with
    | error e => rw [setSlot_phases, h1, slotLoad_phases_ne_phasemain _ _ _ _ h]
    | ok v => rw [setSlot_phases, h1, slotLoad_phases_ne_phasemain _ _ _ _ h]

theorem foldl_loadSlot_not_mem (fmc : Cell → Cell) (fs : FS) (s : Slot) :
    ∀ (l : List Slot) (st : MeltsState), s ∉ l →
      getSlot (l.foldl (loadSlot fmc fs) st) s = getSlot st s := by
  intro l
  induction l with
  | nil => intro st _; rfl
  | cons a l ih =>
    intro st h
    have hs : s ≠ a := fun hh => h (by rw [hh]; exact List.mem_cons_self a l)
    rw [List.foldl_cons, ih _ (fun hm => h (List.mem_cons_of_mem a hm)),
      loadSlot_getSlot_ne _ _ _ _ _ hs]

theorem foldl_loadSlot_kelvin (fmc : Cell → Cell) (fs : FS) :
    ∀ (l : List Slot) (st : MeltsState),
      (l.foldl (loadSlot fmc fs) st).kelvin = st.kelvin := by
  intro l
  induction l with
  | nil => intro st; rfl
  | cons a l ih =>
    intro st
    rw [List.foldl_cons, ih, loadSlot_kelvin]

theorem foldl_loadSlot_phases (fmc : Cell → Cell) (fs : FS) :
    ∀ (l : List Slot) (st : MeltsState), Slot.phasemain ∉ l →
      (l.foldl (loadSlot fmc fs) st).phases = st.phases := by
  intro l
  induction l with
  | nil => intro st _; rfl
  | cons a l ih =>
    intro st h
    have hs : a ≠ Slot.phasemain := fun hh => h (by rw [← hh]; exact List.mem_cons_self a l)
    rw [List.foldl_cons, ih _ (fun hm => h (List.mem_cons_of_mem a hm)),
      loadSlot_phases_ne_phasemain _ _ _ _ hs]

/-- A missing table file makes the step of every slot except `tracecomp`
fail at `open()` inside `_get_table_title` (the existence check is dead, see
`pathCheckAlwaysTrue`), and the bare `except` assigns the empty DataFrame. -/
theorem loadSlot_missing (fmc : Cell → Cell) (fs : FS) (st : MeltsState) (s : Slot)
    (hs : s ≠ Slot.tracecomp) (h : lookupFS fs (slotFile s) = none) :
    getSlot (loadSlot fmc fs st s) s = some ([] : DF) := by
  cases s
  case tracecomp => exact absurd rfl hs
  all_goals
    simp only [slotFile] at h
    simp [loadSlot, slotLoad, readCompTable, readPhaseTable, readPhasemain, readTableM,
      pathCheckAlwaysTrue, slotFile, h, getSlot_setSlot_self]

/-- The value of a slot after construction is the value written by that
slot's own loop iteration (every slot occurs exactly once in `slotOrder`,
and later iterations do not touch it). -/
theorem meltsOutput_getSlot_eq_step (fmc : Cell → Cell) (fs : FS) (kelvin : Bool)
    (s : Slot) : ∃ st : MeltsState,
      getSlot (meltsOutput fmc fs kelvin) s = getSlot (loadSlot fmc fs st s) s := by
  cases s
  case bulkcomp =>
    have e1 : meltsOutput fmc fs kelvin =
        ([Slot.solidcomp, .liquidcomp, .phasemass, .phasevol, .tracecomp, .system,
          .phasemain]).foldl (loadSlot fmc fs)
          (loadSlot fmc fs (initState kelvin) .bulkcomp) := rfl
    exact ⟨_, by rw [e1, foldl_loadSlot_not_mem _ _ _ _ _ (by decide)]⟩
  case solidcomp =>
    have e1 : meltsOutput fmc fs kelvin =
        ([Slot.liquidcomp, .phasemass, .phasevol, .tracecomp, .system,
          .phasemain]).foldl (loadSlot fmc fs)
          (loadSlot fmc fs (loadSlot fmc fs (initState kelvin) .bulkcomp) .solidcomp) := rfl
    exact ⟨_, by rw [e1, foldl_loadSlot_not_mem _ _ _ _ _ (by decide)]⟩
  case liquidcomp =>
    have e1 : meltsOutput fmc fs kelvin =
        ([Slot.phasemass, .phasevol, .tracecomp, .system, .phasemain]).foldl
          (loadSlot fmc fs)
          (loadSlot fmc fs (loadSlot fmc fs (loadSlot fmc fs (initState kelvin)
            .bulkcomp) .solidcomp) .liquidcomp) := rfl
    exact ⟨_, by rw [e1, foldl_loadSlot_not_mem _ _ _ _ _ (by decide)]⟩
  case phasemass =>
    have e1 : meltsOutput fmc fs kelvin =
        ([Slot.phasevol, .tracecomp, .system, .phasemain]).foldl (loadSlot fmc fs)
          (loadSlot fmc fs (loadSlot fmc fs (loadSlot fmc fs (loadSlot fmc fs
            (initState kelvin) .bulkcomp) .solidcomp) .liquidcomp) .phasemass) := rfl
    exact ⟨_, by rw [e1, foldl_loadSlot_not_mem _ _ _ _ _ (by decide)]⟩
  case phasevol =>
    have e1 : meltsOutput fmc fs kelvin =
        ([Slot.tracecomp, .system, .phasemain]).foldl (loadSlot fmc fs)
          (loadSlot fmc fs (loadSlot fmc fs (loadSlot fmc fs (loadSlot fmc fs
            (loadSlot fmc fs (initState kelvin) .bulkcomp) .solidcomp) .liquidcomp)
            .phasemass) .phasevol) := rfl
    exact ⟨_, by rw [e1, foldl_loadSlot_not_mem _ _ _ _ _ (by decide)]⟩
  case tracecomp =>
    have e1 : meltsOutput fmc fs kelvin =
        ([Slot.system, .phasemain]).foldl (loadSlot fmc fs)
          (loadSlot fmc fs (loadSlot fmc fs (loadSlot fmc fs (loadSlot fmc fs
            (loadSlot fmc fs (loadSlot fmc fs (initState kelvin) .bulkcomp)
            .solidcomp) .liquidcomp) .phasemass) .phasevol) .tracecomp) := rfl
    exact ⟨_, by rw [e1, foldl_loadSlot_not_mem _ _ _ _ _ (by decide)]⟩
  case system =>
    have e1 : meltsOutput fmc fs kelvin =
        ([Slot.phasemain]).foldl (loadSlot fmc fs)
          (loadSlot fmc fs (loadSlot fmc fs (loadSlot fmc fs (loadSlot fmc fs
            (loadSlot fmc fs (loadSlot fmc fs (loadSlot fmc fs (initState kelvin)
            .bulkcomp) .solidcomp) .liquidcomp) .phasemass) .phasevol) .tracecomp)
            .system) := rfl
    exact ⟨_, by rw [e1, foldl_loadSlot_not_mem _ _ _ _ _ (by decide)]⟩
  case phasemain =>
    have e1 : meltsOutput fmc fs kelvin =
        loadSlot fmc fs (loadSlot fmc fs (loadSlot fmc fs (loadSlot fmc fs
          (loadSlot fmc fs (loadSlot fmc fs (loadSlot fmc fs (loadSlot fmc fs
          (initState kelvin) .bulkcomp) .solidcomp) .liquidcomp) .phasemass)
          .phasevol) .tracecomp) .system) .phasemain := rfl
    exact ⟨_, by rw [e1]⟩

/-- The final value of a non-`tracecomp` slot whose file is missing. -/
theorem meltsOutput_getSlot_missing (fmc : Cell → Cell) (fs : FS) (kelvin : Bool)
    (s : Slot) (hs : s ≠ Slot.tracecomp) (h : lookupFS fs (slotFile s) = none) :
    getSlot (meltsOutput fmc fs kelvin) s = some ([] : DF) := by
  obtain ⟨st, he⟩ := meltsOutput_getSlot_eq_step fmc fs kelvin s
  rw [he]
  exact loadSlot_missing _ _ _ _ hs h

/-! ## Claim C1 -/

/-- C1 (counterexample): with an empty experiment directory the file
`Trace_main_tbl.txt` does not exist, yet the `tracecomp` attribute is the
Python value `None`, not an empty DataFrame, because `_read_trace` is a
stub (`pass`) that never touches the file and returns `None` without
raising. -/
theorem c1_counterexample :
    lookupFS ([] : FS) "Trace_main_tbl.txt" = none ∧
      (meltsOutput cellId [] true).tracecomp ≠ some ([] : DF) := by
  exact ⟨rfl, by decide⟩

/-- C1 (amended): for each of the seven table files other than
`Trace_main_tbl.txt`, if the file does not exist then construction completes
(the embedding of `__init__` is total) and the corresponding attribute is an
empty DataFrame; the `tracecomp` attribute is instead always `None`. -/
theorem c1_missing_file_empty_table (fs : FS) (kelvin : Bool) (fmc : Cell → Cell) :
    (lookupFS fs "Bulk_comp_tbl.txt" = none →
      (meltsOutput fmc fs kelvin).bulkcomp = some ([] : DF)) ∧
    (lookupFS fs "Solid_comp_tbl.txt" = none →
      (meltsOutput fmc fs kelvin).solidcomp = some ([] : DF)) ∧
    (lookupFS fs "Liquid_comp_tbl.txt" = none →
      (meltsOutput fmc fs kelvin).liquidcomp = some ([] : DF)) ∧
    (lookupFS fs "Phase_mass_tbl.txt" = none →
      (meltsOutput fmc fs kelvin).phasemass = some ([] : DF)) ∧
    (lookupFS fs "Phase_vol_tbl.txt" = none →
      (meltsOutput fmc fs kelvin).phasevol = some ([] : DF)) ∧
    (lookupFS fs "System_main_tbl.txt" = none →
      (meltsOutput fmc fs kelvin).system = some ([] : DF)) ∧
    (lookupFS fs "Phase_main_tbl.txt" = none →
      (meltsOutput fmc fs kelvin).phasemain = some ([] : DF)) := by
  refine ⟨?_, ?_, ?_, ?_, ?_, ?_, ?_⟩
  · exact fun h => meltsOutput_getSlot_missing fmc fs kelvin .bulkcomp (by decide) h
  · exact fun h => meltsOutput_getSlot_missing fmc fs kelvin .solidcomp (by decide) h
  · exact fun h => meltsOutput_getSlot_missing fmc fs kelvin .liquidcomp (by decide) h
  · exact fun h => meltsOutput_getSlot_missing fmc fs kelvin .phasemass (by decide) h
  · exact fun h => meltsOutput_getSlot_missing fmc fs kelvin .phasevol (by decide) h
  · exact fun h => meltsOutput_getSlot_missing fmc fs kelvin .system (by decide) h
  · exact fun h => meltsOutput_getSlot_missing fmc fs kelvin .phasemain (by decide) h

/-- C1 (witness): the amended theorem applied to the empty directory. -/
theorem c1_witness :
    (meltsOutput cellId [] true).bulkcomp = some ([] : DF) ∧
      (meltsOutput cellId [] true).phasemain = some ([] : DF) := by
  exact ⟨(c1_missing_file_empty_table [] true cellId).1 rfl,
    (c1_missing_file_empty_table [] true cellId).2.2.2.2.2.2 rfl⟩

/-! ## Claim C2 -/

/-- `read_table` never reaches its dead `return None` branch. -/
theorem readTableM_not_ok_none (fs : FS) (st : MeltsState) (path : String)
    (k : Nat) : (readTableM fs st path k).2 ≠ Except.ok none := by
  unfold readTableM
  simp only [pathCheckAlwaysTrue, if_true]
  split
  · intro h; cases h
  · split
    · intro h; cases h
    · split
      · intro h; cases h
      · intro h; cases h

/-- A successful `_read_*comp` / `_read_systemmain` yields a DataFrame. -/
theorem readCompTable_ok_some (fs : FS) (st : MeltsState) (path : String)
    (v : Option DF) (h : (readCompTable fs st path).2 = .ok v) :
    ∃ df, v = some df := by
  unfold readCompTable at h
  cases hr : readTableM fs st path 3 with
  | mk st1 r =>
    rw [hr] at h
    cases r with
    | error e => cases h
    | ok w =>
      cases w with
      | none =>
        exact absurd (by rw [hr]) (readTableM_not_ok_none fs st path 3)
      | some df =>
        simp only [Except.ok.injEq] at h
        exact ⟨zeroToNan df, h.symm⟩

/-- A successful `_read_phasemass` / `_read_phasevol` yields a DataFrame. -/
theorem readPhaseTable_ok_some (fs : FS) (st : MeltsState) (path : String)
    (v : Option DF) (h : (readPhaseTable fs st path).2 = .ok v) :
    ∃ df, v = some df := by
  unfold readPhaseTable at h
  cases hr : readTableM fs st path 3 with
  | mk st1 r =>
    rw [hr] at h
    cases r with
    | error e => cases h
    | ok w =>
      cases w with
      | none =>
        exact absurd (by rw [hr]) (readTableM_not_ok_none fs st path 3)
      | some df =>
        simp only [Except.ok.injEq] at h
        exact ⟨zeroToNan df, h.symm⟩

/-- `_read_phasemain` has no `return`: when it does not raise it returns
`None`. -/
theorem processBlocks_ok_none (fmc : Cell → Cell) (data : List String) :
    ∀ (st : MeltsState) (v : Option DF),
      (processBlocks fmc data st).2 = .ok v → v = none := by
  induction data with
  | nil =>
    intro st v h
    simp only [processBlocks] at h
    cases h; rfl
  | cons tab rest ih =>
    intro st v h
    unfold processBlocks at h
    split at h
    · cases h
    · exact ih _ v h

theorem readPhasemain_ok_none (fmc : Cell → Cell) (fs : FS) (st : MeltsState)
    (path : String) (v : Option DF)
    (h : (readPhasemain fmc fs st path).2 = .ok v) : v = none := by
  unfold readPhasemain at h
  cases hl : lookupFS fs path with
  | none => rw [hl] at h; cases h
  | some content =>
    rw [hl] at h
    exact processBlocks_ok_none fmc _ st v h

/-- The value a single loop iteration writes into its own slot: the six
plain table slots always receive a DataFrame (empty on failure). -/
theorem loadSlot_self_comp_isSome (fmc : Cell → Cell) (fs : FS) (st : MeltsState)
    (s : Slot)
    (hs : s = Slot.bulkcomp ∨ s = Slot.solidcomp ∨ s = Slot.liquidcomp ∨
      s = Slot.system ∨ s = Slot.phasemass ∨ s = Slot.phasevol) :
    (getSlot (loadSlot fmc fs st s) s).isSome = true := by
  cases s
  case tracecomp => rcases hs with h | h | h | h | h | h <;> cases h
  case phasemain => rcases hs with h | h | h | h | h | h <;> cases h
  case bulkcomp =>
    unfold loadSlot
    cases hl : slotLoad fmc fs st Slot.bulkcomp with
    | mk st1 r =>
      cases r with
      | error e => rw [getSlot_setSlot_self]; rfl
      | ok v =>
        rw [getSlot_setSlot_self]
        have hl2 : readCompTable fs st (slotFile Slot.bulkcomp) = (st1, Except.ok v) := hl
        obtain ⟨df, hdf⟩ := readCompTable_ok_some fs st _ v (by rw [hl2])
        rw [hdf]; rfl
  case solidcomp =>
    unfold loadSlot
    cases hl : slotLoad fmc fs st Slot.solidcomp with
    | mk st1 r =>
      cases r with
      | error e => rw [getSlot_setSlot_self]; rfl
      | ok v =>
        rw [getSlot_setSlot_self]
        have hl2 : readCompTable fs st (slotFile Slot.solidcomp) = (st1, Except.ok v) := hl
        obtain ⟨df, hdf⟩ := readCompTable_ok_some fs st _ v (by rw [hl2])
        rw [hdf]; rfl
  case liquidcomp =>
    unfold loadSlot
    cases hl : slotLoad fmc fs st Slot.liquidcomp with
    | mk st1 r =>
      cases r with
      | error e => rw [getSlot_setSlot_self]; rfl
      | ok v =>
        rw [getSlot_setSlot_self]
        have hl2 : readCompTable fs st (slotFile Slot.liquidcomp) = (st1, Except.ok v) := hl
        obtain ⟨df, hdf⟩ := readCompTable_ok_some fs st _ v (by rw [hl2])
        rw [hdf]; rfl
  case system =>
    unfold loadSlot
    cases hl : slotLoad fmc fs st Slot.system with
    | mk st1 r =>
      cases r with
      | error e => rw [getSlot_setSlot_self]; rfl
      | ok v =>
        rw [getSlot_setSlot_self]
        have hl2 : readCompTable fs st (slotFile Slot.system) = (st1, Except.ok v) := hl
        obtain ⟨df, hdf⟩ := readCompTable_ok_some fs st _ v (by rw [hl2])
        rw [hdf]; rfl
  case phasemass =>
    unfold loadSlot
    cases hl : slotLoad fmc fs st Slot.phasemass with
    | mk st1 r =>
      cases r with
      | error e => rw [getSlot_setSlot_self]; rfl
      | ok v =>
        rw [getSlot_setSlot_self]
        have hl2 : readPhaseTable fs st (slotFile Slot.phasemass) = (st1, Except.ok v) := hl
        obtain ⟨df, hdf⟩ := readPhaseTable_ok_some fs st _ v (by rw [hl2])
        rw [hdf]; rfl
  case phasevol =>
    unfold loadSlot
    cases hl : slotLoad fmc fs st Slot.phasevol with
    | mk st1 r =>
      cases r with
      | error e => rw [getSlot_setSlot_self]; rfl
      | ok v =>
        rw [getSlot_setSlot_self]
        have hl2 : readPhaseTable fs st (slotFile Slot.phasevol) = (st1, Except.ok v) := hl
        obtain ⟨df, hdf⟩ := readPhaseTable_ok_some fs st _ v (by rw [hl2])
        rw [hdf]; rfl

/-- The `tracecomp` iteration always writes `None`. -/
theorem loadSlot_self_tracecomp (fmc : Cell → Cell) (fs : FS) (st : MeltsState) :
    getSlot (loadSlot fmc fs st Slot.tracecomp) Slot.tracecomp = none := by
  unfold loadSlot
  have hl2 : slotLoad fmc fs st Slot.tracecomp = (st, Except.ok none) := rfl
  rw [hl2, getSlot_setSlot_self]

/-- The `phasemain` iteration writes `None` (loader success) or the empty
DataFrame (loader failure). -/
theorem loadSlot_self_phasemain (fmc : Cell → Cell) (fs : FS) (st : MeltsState) :
    getSlot (loadSlot fmc fs st Slot.phasemain) Slot.phasemain = none ∨
      getSlot (loadSlot fmc fs st Slot.phasemain) Slot.phasemain = some ([] : DF) := by
  unfold loadSlot
  cases hl : slotLoad fmc fs st Slot.phasemain with
  | mk st1 r =>
    cases r with
    | error e => right; rw [getSlot_setSlot_self]
    | ok v =>
      left
      rw [getSlot_setSlot_self]
      have hl2 : readPhasemain fmc fs st (slotFile Slot.phasemain) = (st1, Except.ok v) := hl
      rw [readPhasemain_ok_none fmc fs st _ v (by rw [hl2])]

/-- C2 (counterexample): a directory with a well-formed `Phase_main_tbl.txt`
loads the phase blocks into `phases`, the loader returns `None`, and the
`phasemain` attribute therefore holds `None` rather than any table, so the
eight slots do not share a consistent table type. -/
theorem c2_counterexample :
    (meltsOutput cellId [("Phase_main_tbl.txt", "H\n\nOl 1\nA B\n1 2")] true).phasemain
        = none ∧
      (meltsOutput cellId [("Phase_main_tbl.txt", "H\n\nOl 1\nA B\n1 2")] true).phases
        ≠ [] := by
  exact ⟨rfl, by decide⟩

/-- C2 (amended): every declared attribute exists after construction and any
exception during a load yields the empty DataFrame, but the type is not
uniform over all eight slots: the six plain table slots always hold a
DataFrame, `tracecomp` always holds `None` (its loader is the stub `pass`),
and `phasemain` holds `None` exactly when its load succeeds and the empty
DataFrame when it raises. -/
theorem c2_slot_types (fs : FS) (kelvin : Bool) (fmc : Cell → Cell) :
    ((meltsOutput fmc fs kelvin).bulkcomp).isSome = true ∧
    ((meltsOutput fmc fs kelvin).solidcomp).isSome = true ∧
    ((meltsOutput fmc fs kelvin).liquidcomp).isSome = true ∧
    ((meltsOutput fmc fs kelvin).phasemass).isSome = true ∧
    ((meltsOutput fmc fs kelvin).phasevol).isSome = true ∧
    ((meltsOutput fmc fs kelvin).system).isSome = true ∧
    (meltsOutput fmc fs kelvin).tracecomp = none ∧
    ((meltsOutput fmc fs kelvin).phasemain = none ∨
      (meltsOutput fmc fs kelvin).phasemain = some ([] : DF)) := by
  refine ⟨?_, ?_, ?_, ?_, ?_, ?_, ?_, ?_⟩
  · obtain ⟨st, he⟩ := meltsOutput_getSlot_eq_step fmc fs kelvin .bulkcomp
    show (getSlot (meltsOutput fmc fs kelvin) .bulkcomp).isSome = true
    rw [he]; exact loadSlot_self_comp_isSome fmc fs st _ (by left; rfl)
  · obtain ⟨st, he⟩ := meltsOutput_getSlot_eq_step fmc fs kelvin .solidcomp
    show (getSlot (meltsOutput fmc fs kelvin) .solidcomp).isSome = true
    rw [he]; exact loadSlot_self_comp_isSome fmc fs st _ (by right; left; rfl)
  · obtain ⟨st, he⟩ := meltsOutput_getSlot_eq_step fmc fs kelvin .liquidcomp
    show (getSlot (meltsOutput fmc fs kelvin) .liquidcomp).isSome = true
    rw [he]; exact loadSlot_self_comp_isSome fmc fs st _ (by right; right; left; rfl)
  · obtain ⟨st, he⟩ := meltsOutput_getSlot_eq_step fmc fs kelvin .phasemass
    show (getSlot (meltsOutput fmc fs kelvin) .phasemass).isSome = true
    rw [he]
    exact loadSlot_self_comp_isSome fmc fs st _ (by right; right; right; right; left; rfl)
  · obtain ⟨st, he⟩ := meltsOutput_getSlot_eq_step fmc fs kelvin .phasevol
    show (getSlot (meltsOutput fmc fs kelvin) .phasevol).isSome = true
    rw [he]
    exact loadSlot_self_comp_isSome fmc fs st _
      (by right; right; right; right; right; rfl)
  · obtain ⟨st, he⟩ := meltsOutput_getSlot_eq_step fmc fs kelvin .system
    show (getSlot (meltsOutput fmc fs kelvin) .system).isSome = true
    rw [he]; exact loadSlot_self_comp_isSome fmc fs st _ (by right; right; right; left; rfl)
  · obtain ⟨st, he⟩ := meltsOutput_getSlot_eq_step fmc fs kelvin .tracecomp
    show getSlot (meltsOutput fmc fs kelvin) .tracecomp = none
    rw [he]; exact loadSlot_self_tracecomp fmc fs st
  · obtain ⟨st, he⟩ := meltsOutput_getSlot_eq_step fmc fs kelvin .phasemain
    show getSlot (meltsOutput fmc fs kelvin) .phasemain = none ∨
      getSlot (meltsOutput fmc fs kelvin) .phasemain = some ([] : DF)
    rw [he]; exact loadSlot_self_phasemain fmc fs st

/-! ## Claim C3 -/

/-- C3: on a directory without `Solid_comp_tbl.txt`, `read_table` itself
raises `FileNotFoundError` (from `open()` inside `_get_table_title`) instead
of logging and returning `None`: the guard `if path.exists and path.is_file`
tests two bound method objects, which are always truthy, so the
log-and-return-`None` branch is dead code. -/
theorem c3_read_table_raises_on_missing :
    readTableM ([] : FS) (initState true) "Solid_comp_tbl.txt" 3 =
      (initState true, Except.error Err.fileNotFound) ∧
    pathCheckAlwaysTrue = true := ⟨rfl, rfl⟩

/-! ## Bridge lemmas: the evaluable arithmetic equals the field operations -/

theorem rat_num_eq (a : ℚ) : (a.num : ℚ) = a * a.den := by
  have h := Rat.num_div_den a
  have ha : ((a.den : ℚ)) ≠ 0 := Nat.cast_ne_zero.mpr (Rat.den_ne_zero a)
  rw [div_eq_iff ha] at h
  exact h

theorem qSub_eq (a b : ℚ) : qSub a b = a - b := by
  unfold qSub
  rw [Rat.divInt_eq_div]
  have ha : ((a.den : ℚ)) ≠ 0 := Nat.cast_ne_zero.mpr (Rat.den_ne_zero a)
  have hb : ((b.den : ℚ)) ≠ 0 := Nat.cast_ne_zero.mpr (Rat.den_ne_zero b)
  push_cast
  field_simp
  rw [rat_num_eq a, rat_num_eq b]
  ring

theorem qAdd_eq (a b : ℚ) : qAdd a b = a + b := by
  unfold qAdd
  rw [Rat.divInt_eq_div]
  have ha : ((a.den : ℚ)) ≠ 0 := Nat.cast_ne_zero.mpr (Rat.den_ne_zero a)
  have hb : ((b.den : ℚ)) ≠ 0 := Nat.cast_ne_zero.mpr (Rat.den_ne_zero b)
  push_cast
  field_simp
  rw [rat_num_eq a, rat_num_eq b]
  ring

theorem qDiv_eq (a b : ℚ) : qDiv a b = a / b := by
  unfold qDiv
  by_cases hb0 : b = 0
  · subst hb0
    rw [show ((0 : ℚ).num) = 0 from rfl, mul_zero, Rat.divInt_zero, div_zero]
  · have hbn : b.num ≠ 0 := Rat.num_ne_zero.mpr hb0
    rw [Rat.divInt_eq_div]
    have ha : ((a.den : ℚ)) ≠ 0 := Nat.cast_ne_zero.mpr (Rat.den_ne_zero a)
    have hbd : ((b.den : ℚ)) ≠ 0 := Nat.cast_ne_zero.mpr (Rat.den_ne_zero b)
    have hbnq : ((b.num : ℚ)) ≠ 0 := Int.cast_ne_zero.mpr hbn
    push_cast
    field_simp
    rw [rat_num_eq a, rat_num_eq b]
    ring

theorem tempOffset_eq : tempOffset = 273.15 := by
  unfold tempOffset
  rw [Rat.mkRat_eq_divInt, Rat.divInt_eq_div]
  norm_num

theorem mwMgO_eq : mwMgO = (403044 / 10000 : ℚ) := by
  unfold mwMgO
  rw [Rat.mkRat_eq_divInt, Rat.divInt_eq_div]
  norm_num

theorem mwFeO_eq : mwFeO = (71844 / 1000 : ℚ) := by
  unfold mwFeO
  rw [Rat.mkRat_eq_divInt, Rat.divInt_eq_div]
  norm_num

/-- The Mg-number computed by the embedding is the textbook molar-ratio
formula. -/
theorem mgnoCell_eq_spec (x y : Cell) : mgnoCell x y = specMgnoCell x y := by
  cases x with
  | nan => cases y <;> rfl
  | str s => cases y <;> rfl
  | num a =>
    cases y with
    | nan => rfl
    | str s => rfl
    | num b =>
      show (if qAdd (qDiv a mwMgO) (qDiv b mwFeO) = 0 then Cell.nan
        else Cell.num (qDiv (qDiv a mwMgO) (qAdd (qDiv a mwMgO) (qDiv b mwFeO)))) = _
      simp only [qDiv_eq, qAdd_eq, mwMgO_eq, mwFeO_eq]
      rfl

/-! ## Claims C5 and C9: `_read_phasemain` -/

/-- When every block parses, `_read_phasemain` inserts each block's
(name, table) pair in order and returns `None`. -/
theorem processBlocks_all_ok (fmc : Cell → Cell) (data : List String) :
    ∀ (st : MeltsState) (entries : List (String × DF)),
      data.mapM (processBlock st.kelvin fmc) = Except.ok entries →
      processBlocks fmc data st =
        ({ st with phases := entries.foldl (fun d e => dictInsert d e.1 e.2) st.phases },
          Except.ok none) := by
  induction data with
  | nil =>
    intro st entries h
    simp only [List.mapM_nil] at h
    cases h
    rfl
  | cons tab rest ih =>
    intro st entries h
    rw [List.mapM_cons] at h
    cases hb : processBlock st.kelvin fmc tab with
    | error e => rw [hb] at h; cases h
    | ok pt =>
      rw [hb] at h
      cases hr : rest.mapM (processBlock st.kelvin fmc) with
      | error e => rw [hr] at h; cases h
      | ok es =>
        rw [hr] at h
        simp only [bind, Except.bind, pure, Except.pure] at h
        cases h
        have hrec := ih { st with phases := dictInsert st.phases pt.1 pt.2 } es hr
        show processBlocks fmc (tab :: rest) st = _
        unfold processBlocks
        rw [hb]
        exact hrec

/-- When the blocks before `bad` parse and `bad` raises, `_read_phasemain`
stops with the error, keeping exactly the earlier insertions. -/
theorem processBlocks_fail (fmc : Cell → Cell) (pre : List String) :
    ∀ (st : MeltsState) (entries : List (String × DF)) (bad : String)
      (rest : List String),
      pre.mapM (processBlock st.kelvin fmc) = Except.ok entries →
      exceptIsOk (processBlock st.kelvin fmc bad) = false →
      ∃ e, processBlocks fmc (pre ++ bad :: rest) st =
        ({ st with phases := entries.foldl (fun d x => dictInsert d x.1 x.2) st.phases },
          Except.error e) := by
  induction pre with
  | nil =>
    intro st entries bad rest h hbad
    simp only [List.mapM_nil] at h
    cases h
    cases hb : processBlock st.kelvin fmc bad with
    | error e =>
      refine ⟨e, ?_⟩
      show processBlocks fmc (bad :: rest) st = _
      unfold processBlocks
      rw [hb]
      rfl
    | ok pt => rw [hb] at hbad; cases hbad
  | cons tab pre ih =>
    intro st entries bad rest h hbad
    rw [List.mapM_cons] at h
    cases hb : processBlock st.kelvin fmc tab with
    | error e => rw [hb] at h; cases h
    | ok pt =>
      rw [hb] at h
      cases hr : pre.mapM (processBlock st.kelvin fmc) with
      | error e => rw [hr] at h; cases h
      | ok es =>
        rw [hr] at h
        simp only [bind, Except.bind, pure, Except.pure] at h
        cases h
        obtain ⟨e, he⟩ := ih { st with phases := dictInsert st.phases pt.1 pt.2 } es bad rest hr hbad
        refine ⟨e, ?_⟩
        show processBlocks fmc (tab :: (pre ++ bad :: rest)) st = _
        unfold processBlocks
        rw [hb]
        exact he

/-- A successfully parsed block is named by the first whitespace token of
its first line. -/
theorem processBlock_name (kelvin : Bool) (fmc : Cell → Cell) (b : String)
    (n : String) (t : DF) (h : processBlock kelvin fmc b = .ok (n, t)) :
    blockPhaseName b = some n := by
  unfold processBlock at h
  split at h
  · cases h
  · rename_i phase hbn
    split at h
    · cases h
    · dsimp only at h
      split at h
      · cases h
      · cases h
        exact hbn

theorem mapM_ok_length {α β : Type} (f : α → Except Err β) (l : List α) :
    ∀ out, l.mapM f = .ok out → out.length = l.length := by
  induction l with
  | nil =>
    intro out h
    simp only [List.mapM_nil] at h
    cases h
    rfl
  | cons a l ih =>
    intro out h
    rw [List.mapM_cons] at h
    cases hb : f a with
    | error e => rw [hb] at h; cases h
    | ok pt =>
      rw [hb] at h
      cases hr : l.mapM f with
      | error e => rw [hr] at h; cases h
      | ok es =>
        rw [hr] at h
        simp only [bind, Except.bind, pure, Except.pure] at h
        cases h
        simp [ih es hr]

/-- The keys of the parsed entries are exactly the block names. -/
theorem mapM_blocks_names (kelvin : Bool) (fmc : Cell → Cell) (blocks : List String) :
    ∀ entries, blocks.mapM (processBlock kelvin fmc) = .ok entries →
      dictKeys entries = blocks.filterMap blockPhaseName := by
  induction blocks with
  | nil =>
    intro entries h
    simp only [List.mapM_nil] at h
    cases h
    rfl
  | cons b blocks ih =>
    intro entries h
    rw [List.mapM_cons] at h
    cases hb : processBlock kelvin fmc b with
    | error e => rw [hb] at h; cases h
    | ok pt =>
      rw [hb] at h
      cases hr : blocks.mapM (processBlock kelvin fmc) with
      | error e => rw [hr] at h; cases h
      | ok es =>
        rw [hr] at h
        simp only [bind, Except.bind, pure, Except.pure] at h
        cases h
        have hn : blockPhaseName b = some pt.1 :=
          processBlock_name kelvin fmc b pt.1 pt.2 (by rw [hb])
        have ihe := ih es hr
        show pt.1 :: dictKeys es = List.filterMap blockPhaseName (b :: blocks)
        simp only [List.filterMap_cons, hn]
        rw [ihe]

/-- The first seven loop iterations leave `phases` empty and `kelvin`
untouched, so the `phasemain` iteration starts from a state with the
constructor's `kelvin` and no phases. -/
theorem meltsOutput_phases_eq (fmc : Cell → Cell) (fs : FS) (kelvin : Bool) :
    ∃ st : MeltsState, st.phases = [] ∧ st.kelvin = kelvin ∧
      meltsOutput fmc fs kelvin = loadSlot fmc fs st Slot.phasemain := by
  refine ⟨loadSlot fmc fs (loadSlot fmc fs (loadSlot fmc fs (loadSlot fmc fs
    (loadSlot fmc fs (loadSlot fmc fs (loadSlot fmc fs (initState kelvin)
    .bulkcomp) .solidcomp) .liquidcomp) .phasemass) .phasevol) .tracecomp)
    .system, ?_, ?_, rfl⟩
  · rw [loadSlot_phases_ne_phasemain _ _ _ _ (by decide),
      loadSlot_phases_ne_phasemain _ _ _ _ (by decide),
      loadSlot_phases_ne_phasemain _ _ _ _ (by decide),
      loadSlot_phases_ne_phasemain _ _ _ _ (by decide),
      loadSlot_phases_ne_phasemain _ _ _ _ (by decide),
      loadSlot_phases_ne_phasemain _ _ _ _ (by decide),
      loadSlot_phases_ne_phasemain _ _ _ _ (by decide)]
    rfl
  · rw [loadSlot_kelvin, loadSlot_kelvin, loadSlot_kelvin, loadSlot_kelvin,
      loadSlot_kelvin, loadSlot_kelvin, loadSlot_kelvin]
    rfl

/-- C5: for a `Phase_main_tbl.txt` splitting into a header block followed by
N phase blocks each of which parses, with pairwise distinct phase names,
the `phases` mapping after construction holds exactly the N parsed entries:
one per block, keyed by the first whitespace token of the block's first
line; the header block contributes nothing. -/
theorem c5_phasemain_blocks (fmc : Cell → Cell) (kelvin : Bool) (fs : FS)
    (content hb : String) (blocks : List String) (entries : List (String × DF))
    (h1 : lookupFS fs "Phase_main_tbl.txt" = some content)
    (h2 : pySplitDoubleNL content = hb :: blocks)
    (h3 : blocks.mapM (processBlock kelvin fmc) = Except.ok entries)
    (h4 : (dictKeys entries).Nodup) :
    (meltsOutput fmc fs kelvin).phases = entries ∧
      entries.length = blocks.length ∧
      dictKeys entries = blocks.filterMap blockPhaseName := by
  refine ⟨?_, mapM_ok_length _ blocks entries h3,
    mapM_blocks_names kelvin fmc blocks entries h3⟩
  obtain ⟨st, hp0, hk, he⟩ := meltsOutput_phases_eq fmc fs kelvin
  have hload : readPhasemain fmc fs st (slotFile Slot.phasemain) =
      processBlocks fmc blocks st := by
    show readPhasemain fmc fs st "Phase_main_tbl.txt" = _
    unfold readPhasemain
    rw [h1]
    show processBlocks fmc ((pySplitDoubleNL content).drop 1) st = _
    rw [h2]
    rfl
  have h3s : blocks.mapM (processBlock st.kelvin fmc) = Except.ok entries := by
    rw [hk]; exact h3
  have hpb := processBlocks_all_ok fmc blocks st entries h3s
  have hfold : entries.foldl (fun d e => dictInsert d e.1 e.2) st.phases = entries := by
    rw [hp0]
    have := foldl_dictInsert_of_nodup entries ([] : List (String × DF))
      (by simpa using h4)
    simpa using this
  rw [he]
  unfold loadSlot
  have hsl : slotLoad fmc fs st Slot.phasemain =
      readPhasemain fmc fs st (slotFile Slot.phasemain) := rfl
  rw [hsl, hload, hpb]
  show (setSlot { st with phases := entries.foldl (fun d e => dictInsert d e.1 e.2) st.phases }
    Slot.phasemain none).phases = entries
  rw [setSlot_phases]
  exact hfold

/-- C5 (witness): a two-block phase table produces exactly the two named
entries. -/
theorem c5_witness :
    (meltsOutput cellId
        [("Phase_main_tbl.txt", "Title: P\n\nOl m\nA\n1\n\nCpx m\nB\n2")]
        true).phases =
      [("Ol", [Column.mk "A" [Cell.num 1]]), ("Cpx", [Column.mk "B" [Cell.num 2]])] ∧
    ([("Ol", [Column.mk "A" [Cell.num 1]]),
      ("Cpx", [Column.mk "B" [Cell.num 2]])] : List (String × DF)).length = 2 := by
  have h := c5_phasemain_blocks cellId true
    [("Phase_main_tbl.txt", "Title: P\n\nOl m\nA\n1\n\nCpx m\nB\n2")]
    "Title: P\n\nOl m\nA\n1\n\nCpx m\nB\n2" "Title: P"
    ["Ol m\nA\n1", "Cpx m\nB\n2"]
    [("Ol", [Column.mk "A" [Cell.num 1]]), ("Cpx", [Column.mk "B" [Cell.num 2]])]
    rfl (by decide) rfl (by decide)
  exact ⟨h.1, rfl⟩

/-- C9: if block k of `Phase_main_tbl.txt` raises while all earlier blocks
parse, the earlier blocks' entries remain in `phases` although the
`phasemain` attribute is replaced by the empty DataFrame: the object ends up
with a partially populated phase mapping. -/
theorem c9_partial_phases (fmc : Cell → Cell) (kelvin : Bool) (fs : FS)
    (content hb bad : String) (pre rest : List String)
    (entries : List (String × DF))
    (h1 : lookupFS fs "Phase_main_tbl.txt" = some content)
    (h2 : pySplitDoubleNL content = hb :: (pre ++ bad :: rest))
    (h3 : pre.mapM (processBlock kelvin fmc) = Except.ok entries)
    (h4 : exceptIsOk (processBlock kelvin fmc bad) = false)
    (h5 : (dictKeys entries).Nodup) :
    (meltsOutput fmc fs kelvin).phasemain = some ([] : DF) ∧
      (meltsOutput fmc fs kelvin).phases = entries := by
  obtain ⟨st, hp0, hk, he⟩ := meltsOutput_phases_eq fmc fs kelvin
  have hload : readPhasemain fmc fs st (slotFile Slot.phasemain) =
      processBlocks fmc (pre ++ bad :: rest) st := by
    show readPhasemain fmc fs st "Phase_main_tbl.txt" = _
    unfold readPhasemain
    rw [h1]
    show processBlocks fmc ((pySplitDoubleNL content).drop 1) st = _
    rw [h2]
    rfl
  have h3s : pre.mapM (processBlock st.kelvin fmc) = Except.ok entries := by
    rw [hk]; exact h3
  have h4s : exceptIsOk (processBlock st.kelvin fmc bad) = false := by
    rw [hk]; exact h4
  obtain ⟨e, hpb⟩ := processBlocks_fail fmc pre st entries bad rest h3s h4s
  have hfold : entries.foldl (fun d x => dictInsert d x.1 x.2) st.phases = entries := by
    rw [hp0]
    have := foldl_dictInsert_of_nodup entries ([] : List (String × DF))
      (by simpa using h5)
    simpa using this
  have hsl : slotLoad fmc fs st Slot.phasemain =
      readPhasemain fmc fs st (slotFile Slot.phasemain) := rfl
  constructor
  · rw [he]
    unfold loadSlot
    rw [hsl, hload, hpb]
    show (setSlot { st with phases := entries.foldl (fun d x => dictInsert d x.1 x.2) st.phases }
      Slot.phasemain (some ([] : DF))).phasemain = some ([] : DF)
    have := getSlot_setSlot_self
      { st with phases := entries.foldl (fun d x => dictInsert d x.1 x.2) st.phases }
      Slot.phasemain (some ([] : DF))
    exact this
  · rw [he]
    unfold loadSlot
    rw [hsl, hload, hpb]
    show (setSlot { st with phases := entries.foldl (fun d x => dictInsert d x.1 x.2) st.phases }
      Slot.phasemain (some ([] : DF))).phases = entries
    rw [setSlot_phases]
    exact hfold

/-- C9 (witness): a truncated phase table whose trailing block is blank:
the first block's entry remains, `phasemain` holds the empty DataFrame. -/
theorem c9_witness :
    (meltsOutput cellId [("Phase_main_tbl.txt", "H\n\nOl m\nA\n1\n\n")]
        true).phasemain = some ([] : DF) ∧
      (meltsOutput cellId [("Phase_main_tbl.txt", "H\n\nOl m\nA\n1\n\n")]
        true).phases = [("Ol", [Column.mk "A" [Cell.num 1]])] := by
  exact c9_partial_phases cellId true
    [("Phase_main_tbl.txt", "H\n\nOl m\nA\n1\n\n")]
    "H\n\nOl m\nA\n1\n\n" "H" "" ["Ol m\nA\n1"] []
    [("Ol", [Column.mk "A" [Cell.num 1]])]
    rfl (by decide) rfl rfl (by decide)

/-! ## Claim C4: the Mg-number column -/

theorem hasCol_true_of_colCells (df : DF) (n : String) (l : List Cell)
    (h : colCells df n = some l) : hasCol df n = true := by
  unfold colCells at h
  obtain ⟨c, hc, hl⟩ := Option.map_eq_some'.mp h
  unfold hasCol
  rw [List.any_eq_true]
  have hp := List.find?_some hc
  exact ⟨c, List.mem_of_find?_eq_some hc, hp⟩

theorem colCells_append_single (df : DF) (c : Column)
    (h : hasCol df c.name = false) : colCells (df ++ [c]) c.name = some c.cells := by
  unfold colCells
  rw [find?_append]
  have hnone : df.find? (fun x => decide (x.name = c.name)) = none := by
    rw [List.find?_eq_none]
    intro x hx
    simp only [decide_eq_true_eq]
    intro he
    unfold hasCol at h
    rw [List.any_eq_false] at h
    exact absurd (by simp [he]) (h x hx)
  rw [hnone]
  show (([c] : DF).find? (fun x => decide (x.name = c.name))).map Column.cells = some c.cells
  simp [List.find?]

theorem colCells_append_of_hasCol (df : DF) (c : Column) (n : String)
    (h : hasCol df n = true) : colCells (df ++ [c]) n = colCells df n := by
  unfold colCells
  rw [find?_append]
  have hne : df.find? (fun x => decide (x.name = n)) ≠ none := by
    intro hn
    rw [List.find?_eq_none] at hn
    unfold hasCol at h
    rw [List.any_eq_true] at h
    obtain ⟨x, hx, hp⟩ := h
    exact hn x hx hp
  cases hf : df.find? (fun x => decide (x.name = n)) with
  | none => exact absurd hf hne
  | some x => rfl

/-- With the eight-slot file present and the CSV and temperature steps
succeeding, `read_table` sets the title and returns the post-processed
DataFrame, appending the Mg-number column exactly when both `MgO` and `FeO`
are present. -/
theorem readTableM_result (fs : FS) (st : MeltsState) (path content : String)
    (df0 df2 : DF)
    (h1 : lookupFS fs path = some content)
    (h2 : readCsv content 3 = .ok df0)
    (h3 : tempConvertDF st.kelvin (dropAllNanCols df0) = .ok df2) :
    readTableM fs st path 3 =
      (setTitle st (pyTrim (pyStripTitle ((pySplitLines content).headD ""))),
        .ok (some (if hasCol df2 "MgO" && hasCol df2 "FeO" then addMgNo df2 else df2))) := by
  have h3r : tempConvertDF
      (setTitle st (pyTrim (pyStripTitle ((pySplitLines content).headD "")))).kelvin
      (dropAllNanCols df0) = .ok df2 := by
    rw [setTitle_kelvin]
    exact h3
  simp only [readTableM, pathCheckAlwaysTrue, if_true, h1, h2, h3r]

/-- C4: for a table read by `read_table`, when the post-processed DataFrame
has both an `MgO` and an `FeO` column (and no pre-existing Mg-number
column), the result carries an appended `Mg#` column whose cells are the
standard molar ratio MgO/molar-mass over (MgO/molar-mass + FeO/molar-mass),
row by row; when either input column is absent, no Mg-number column is
present. -/
theorem c4_mgno_column (fs : FS) (st : MeltsState) (path content : String)
    (df0 df2 : DF)
    (h1 : lookupFS fs path = some content)
    (h2 : readCsv content 3 = .ok df0)
    (h3 : tempConvertDF st.kelvin (dropAllNanCols df0) = .ok df2)
    (h4 : hasCol df2 "Mg#" = false) :
    (∀ mg fe, colCells df2 "MgO" = some mg → colCells df2 "FeO" = some fe →
      resultCol (readTableM fs st path 3) "Mg#" =
        some (List.zipWith specMgnoCell mg fe)) ∧
    ((hasCol df2 "MgO" = false ∨ hasCol df2 "FeO" = false) →
      resultHasCol (readTableM fs st path 3) "Mg#" = some false) := by
  have hrt := readTableM_result fs st path content df0 df2 h1 h2 h3
  constructor
  · intro mg fe hmg hfe
    have hbm : hasCol df2 "MgO" = true := hasCol_true_of_colCells df2 _ mg hmg
    have hbf : hasCol df2 "FeO" = true := hasCol_true_of_colCells df2 _ fe hfe
    unfold resultCol
    rw [hrt]
    show colCells (if hasCol df2 "MgO" && hasCol df2 "FeO" then addMgNo df2 else df2)
      "Mg#" = _
    rw [hbm, hbf]
    show colCells (addMgNo df2) "Mg#" = _
    unfold addMgNo
    rw [hmg, hfe]
    show colCells (df2 ++ [Column.mk "Mg#" (List.zipWith mgnoCell mg fe)]) "Mg#" = _
    have hap : colCells (df2 ++ [Column.mk "Mg#" (List.zipWith mgnoCell mg fe)]) "Mg#"
        = some (List.zipWith mgnoCell mg fe) :=
      colCells_append_single df2 (Column.mk "Mg#" (List.zipWith mgnoCell mg fe)) h4
    rw [hap]
    have hfun : mgnoCell = specMgnoCell :=
      funext (fun x => funext (fun y => mgnoCell_eq_spec x y))
    rw [hfun]
  · intro hab
    have hcond : (hasCol df2 "MgO" && hasCol df2 "FeO") = false := by
      rcases hab with h | h <;> rw [h] <;> simp
    unfold resultHasCol
    rw [hrt]
    show some (hasCol (if hasCol df2 "MgO" && hasCol df2 "FeO" then addMgNo df2 else df2)
      "Mg#") = some false
    rw [hcond]
    show some (hasCol df2 "Mg#") = some false
    rw [h4]

/-- C4 (witness): a file with MgO and FeO columns gets the Mg-number column;
a file with MgO but no FeO does not. -/
theorem c4_witness :
    resultCol (readTableM [("t.txt", "Title: A\n\nx\nMgO FeO\n4 7")]
        (initState true) "t.txt" 3) "Mg#" =
      some (List.zipWith specMgnoCell [Cell.num 4] [Cell.num 7]) ∧
    resultHasCol (readTableM [("t.txt", "Title: A\n\nx\nMgO X\n4 7")]
        (initState true) "t.txt" 3) "Mg#" = some false := by
  constructor
  · exact (c4_mgno_column [("t.txt", "Title: A\n\nx\nMgO FeO\n4 7")] (initState true)
      "t.txt" "Title: A\n\nx\nMgO FeO\n4 7"
      [Column.mk "MgO" [Cell.num 4], Column.mk "FeO" [Cell.num 7]]
      [Column.mk "MgO" [Cell.num 4], Column.mk "FeO" [Cell.num 7]]
      rfl rfl rfl (by decide)).1 [Cell.num 4] [Cell.num 7] rfl rfl
  · exact (c4_mgno_column [("t.txt", "Title: A\n\nx\nMgO X\n4 7")] (initState true)
      "t.txt" "Title: A\n\nx\nMgO X\n4 7"
      [Column.mk "MgO" [Cell.num 4], Column.mk "X" [Cell.num 7]]
      [Column.mk "MgO" [Cell.num 4], Column.mk "X" [Cell.num 7]]
      rfl rfl rfl (by decide)).2 (Or.inr (by decide))

/-! ## Claim C6: temperature conversion -/

/-- Shifting an all-numeric cell list never raises. -/
theorem cellsShift (qs : List ℚ) :
    (qs.map Cell.num).mapM tempShiftCell =
      .ok ((qs.map (fun q => qSub q tempOffset)).map Cell.num) := by
  induction qs with
  | nil => rfl
  | cons q qs ih =>
    rw [List.map_cons, List.mapM_cons, ih]
    rfl

theorem hasCol_map_pres (f : Column → Column) (hf : ∀ c, (f c).name = c.name)
    (df : DF) (n : String) : hasCol (df.map f) n = hasCol df n := by
  unfold hasCol
  rw [List.any_map]
  congr 1
  funext c
  simp [Function.comp, hf c]

theorem colCells_of_all (df : DF) (n : String) (X : List Cell)
    (hhas : hasCol df n = true)
    (hcells : ∀ c ∈ df, c.name = n → c.cells = X) :
    colCells df n = some X := by
  induction df with
  | nil => simp [hasCol] at hhas
  | cons c df ih =>
    by_cases hn : c.name = n
    · unfold colCells
      rw [List.find?_cons_of_pos _ (by simp [hn])]
      simp [hcells c (List.mem_cons_self c df) hn]
    · have hrest : hasCol df n = true := by
        unfold hasCol at hhas ⊢
        rw [List.any_cons] at hhas
        rcases Bool.or_eq_true_iff.mp hhas with h | h
        · exact absurd (decide_eq_true_eq.mp h) hn
        · exact h
      have e1 : colCells (c :: df) n = colCells df n := by
        unfold colCells
        rw [List.find?_cons_of_neg _ (by simp [hn])]
      rw [e1]
      exact ih hrest (fun x hx hxn => hcells x (List.mem_cons_of_mem c hx) hxn)

theorem tempConvertDF_true (df : DF) : tempConvertDF true df = .ok df := by
  unfold tempConvertDF
  simp

/-- The loop body of the Celsius conversion over an all-numeric Temperature
table. -/
theorem mapM_shift (qs : List ℚ) : ∀ df : DF,
    (∀ c ∈ df, c.name = "Temperature" → c.cells = qs.map Cell.num) →
    (df.mapM (fun c =>
      if c.name = "Temperature" then
        (c.cells.mapM tempShiftCell).map (fun cs => Column.mk c.name cs)
      else Except.ok c))
    = .ok (df.map (fun c =>
        if c.name = "Temperature" then
          Column.mk c.name ((qs.map (fun q => qSub q tempOffset)).map Cell.num)
        else c)) := by
  intro df
  induction df with
  | nil => intro _; rfl
  | cons c df ih =>
    intro h
    rw [List.mapM_cons]
    by_cases hn : c.name = "Temperature"
    · rw [if_pos hn, h c (List.mem_cons_self c df) hn, cellsShift qs,
        ih (fun x hx => h x (List.mem_cons_of_mem c hx)),
        List.map_cons, if_pos hn]
      rfl
    · rw [if_neg hn, ih (fun x hx => h x (List.mem_cons_of_mem c hx)),
        List.map_cons, if_neg hn]
      rfl

theorem tempConvertDF_false (df : DF) (qs : List ℚ)
    (hhas : hasCol df "Temperature" = true)
    (hcells : ∀ c ∈ df, c.name = "Temperature" → c.cells = qs.map Cell.num) :
    tempConvertDF false df = .ok (df.map (fun c =>
      if c.name = "Temperature" then
        Column.mk c.name ((qs.map (fun q => qSub q tempOffset)).map Cell.num)
      else c)) := by
  unfold tempConvertDF
  split
  · exact mapM_shift qs df hcells
  · rename_i hcond
    exfalso
    apply hcond
    rw [hhas]
    rfl

/-- The name-preservation of the Celsius-conversion column map. -/
theorem shift_name_pres (qs : List ℚ) : ∀ c : Column,
    ((fun c => if c.name = "Temperature" then
      Column.mk c.name ((qs.map (fun q => qSub q tempOffset)).map Cell.num)
      else c) c).name = c.name := by
  intro c
  by_cases hn : c.name = "Temperature" <;> simp [hn]

/-- The Temperature column of the converted table. -/
theorem colCells_shifted (df : DF) (qs : List ℚ)
    (hhas : hasCol df "Temperature" = true) :
    colCells (df.map (fun c =>
      if c.name = "Temperature" then
        Column.mk c.name ((qs.map (fun q => qSub q tempOffset)).map Cell.num)
      else c)) "Temperature" =
      some ((qs.map (fun q => qSub q tempOffset)).map Cell.num) := by
  apply colCells_of_all
  · rw [hasCol_map_pres _ (shift_name_pres qs) df "Temperature"]
    exact hhas
  · intro x hx hxn
    obtain ⟨c, hc, hfc⟩ := List.mem_map.mp hx
    by_cases hn : c.name = "Temperature"
    · rw [← hfc]
      simp [hn]
    · rw [← hfc] at hxn
      simp [hn] at hxn

/-- The subtraction performed by the embedding is the claimed one. -/
theorem shiftFun_eq : (fun q : ℚ => qSub q tempOffset) = (fun q : ℚ => q - 273.15) := by
  funext q
  rw [qSub_eq, tempOffset_eq]

/-- The Temperature column survives the optional Mg-number append. -/
theorem colCells_temp_after_mgno (df : DF) (X : List Cell)
    (hhas : hasCol df "Temperature" = true)
    (hcc : colCells df "Temperature" = some X) :
    colCells (if hasCol df "MgO" && hasCol df "FeO" then addMgNo df else df)
      "Temperature" = some X := by
  cases hcond : (hasCol df "MgO" && hasCol df "FeO") with
  | true =>
    show colCells (addMgNo df) "Temperature" = some X
    unfold addMgNo
    rw [colCells_append_of_hasCol _ _ _ hhas]
    exact hcc
  | false =>
    show colCells df "Temperature" = some X
    exact hcc

/-- `read_table` side of C6. -/
theorem readTable_temp_aux (fs : FS) (st : MeltsState) (path content : String)
    (df0 : DF) (qs : List ℚ)
    (h1 : lookupFS fs path = some content)
    (h2 : readCsv content 3 = .ok df0)
    (hhas : hasCol (dropAllNanCols df0) "Temperature" = true)
    (hcells : ∀ c ∈ dropAllNanCols df0, c.name = "Temperature" →
      c.cells = qs.map Cell.num) :
    resultCol (readTableM fs st path 3) "Temperature" =
      some ((if st.kelvin then qs else qs.map (fun q => q - 273.15)).map Cell.num) := by
  cases hk : st.kelvin with
  | true =>
    have h3 : tempConvertDF st.kelvin (dropAllNanCols df0) = .ok (dropAllNanCols df0) := by
      rw [hk]
      exact tempConvertDF_true _
    have hrt := readTableM_result fs st path content df0 (dropAllNanCols df0) h1 h2 h3
    have hcc : colCells (dropAllNanCols df0) "Temperature" = some (qs.map Cell.num) :=
      colCells_of_all _ _ _ hhas hcells
    unfold resultCol
    rw [hrt]
    show colCells (if hasCol (dropAllNanCols df0) "MgO" &&
        hasCol (dropAllNanCols df0) "FeO" then addMgNo (dropAllNanCols df0)
        else dropAllNanCols df0) "Temperature" = some (qs.map Cell.num)
    exact colCells_temp_after_mgno _ _ hhas hcc
  | false =>
    have h3 : tempConvertDF st.kelvin (dropAllNanCols df0) =
        .ok ((dropAllNanCols df0).map (fun c =>
          if c.name = "Temperature" then
            Column.mk c.name ((qs.map (fun q => qSub q tempOffset)).map Cell.num)
          else c)) := by
      rw [hk]
      exact tempConvertDF_false _ qs hhas hcells
    have hrt := readTableM_result fs st path content df0 _ h1 h2 h3
    have hhas2 : hasCol ((dropAllNanCols df0).map (fun c =>
        if c.name = "Temperature" then
          Column.mk c.name ((qs.map (fun q => qSub q tempOffset)).map Cell.num)
        else c)) "Temperature" = true := by
      rw [hasCol_map_pres _ (shift_name_pres qs) _ "Temperature"]
      exact hhas
    have hcc2 : colCells ((dropAllNanCols df0).map (fun c =>
        if c.name = "Temperature" then
          Column.mk c.name ((qs.map (fun q => qSub q tempOffset)).map Cell.num)
        else c)) "Temperature" =
        some ((qs.map (fun q => q - 273.15)).map Cell.num) := by
      rw [colCells_shifted _ qs hhas, shiftFun_eq]
    unfold resultCol
    rw [hrt]
    show colCells (if hasCol ((dropAllNanCols df0).map (fun c =>
        if c.name = "Temperature" then
          Column.mk c.name ((qs.map (fun q => qSub q tempOffset)).map Cell.num)
        else c)) "MgO" &&
        hasCol ((dropAllNanCols df0).map (fun c =>
        if c.name = "Temperature" then
          Column.mk c.name ((qs.map (fun q => qSub q tempOffset)).map Cell.num)
        else c)) "FeO" then
        addMgNo ((dropAllNanCols df0).map (fun c =>
        if c.name = "Temperature" then
          Column.mk c.name ((qs.map (fun q => qSub q tempOffset)).map Cell.num)
        else c))
        else ((dropAllNanCols df0).map (fun c =>
        if c.name = "Temperature" then
          Column.mk c.name ((qs.map (fun q => qSub q tempOffset)).map Cell.num)
        else c))) "Temperature" = some ((qs.map (fun q => q - 273.15)).map Cell.num)
    exact colCells_temp_after_mgno _ _ hhas2 hcc2

theorem zero_cells (qs : List ℚ) (h : ∀ q ∈ qs, q ≠ 0) :
    (qs.map Cell.num).map zeroToNanCell = qs.map Cell.num := by
  rw [List.map_map]
  apply List.map_congr_left
  intro q hq
  show (if q = 0 then Cell.nan else Cell.num q) = Cell.num q
  rw [if_neg (h q hq)]

/-- `_read_phasemain` side of C6. -/
theorem processBlock_temp_aux (kelvin : Bool) (fmc : Cell → Cell) (b nm : String)
    (t0 : DF) (qs : List ℚ)
    (hb : blockPhaseName b = some nm)
    (hcsv : readCsv (blockBody b) 0 = .ok t0)
    (hhas : hasCol t0 "Temperature" = true)
    (hcells : ∀ c ∈ t0, c.name = "Temperature" → c.cells = qs.map Cell.num)
    (hnz : ∀ q ∈ qs, q ≠ 0) :
    blockName (processBlock kelvin fmc b) = some nm ∧
    blockCol (processBlock kelvin fmc b) "Temperature" =
      some ((if kelvin then qs else qs.map (fun q => q - 273.15)).map Cell.num) := by
  have hhas1 : hasCol (zeroToNan t0) "Temperature" = true := by
    unfold zeroToNan
    rw [hasCol_map_pres (fun c => Column.mk c.name (c.cells.map zeroToNanCell))
      (fun c => rfl) t0 "Temperature"]
    exact hhas
  have hcells1 : ∀ c ∈ zeroToNan t0, c.name = "Temperature" →
      c.cells = qs.map Cell.num := by
    intro x hx hxn
    unfold zeroToNan at hx
    obtain ⟨c, hc, hfc⟩ := List.mem_map.mp hx
    rw [← hfc] at hxn ⊢
    have hcn : c.name = "Temperature" := hxn
    show c.cells.map zeroToNanCell = qs.map Cell.num
    rw [hcells c hc hcn]
    exact zero_cells qs hnz
  have hfg : ∀ c : Column, ((fun c => if c.name = "formula" then
      Column.mk c.name (c.cells.map fmc) else c) c).name = c.name := by
    intro c
    by_cases h : c.name = "formula" <;> simp [h]
  have hhas2 : hasCol (if hasCol (zeroToNan t0) "formula" then
      (zeroToNan t0).map (fun c => if c.name = "formula" then
        Column.mk c.name (c.cells.map fmc) else c)
      else zeroToNan t0) "Temperature" = true := by
    by_cases hfm : hasCol (zeroToNan t0) "formula" = true
    · rw [if_pos hfm, hasCol_map_pres _ hfg _ _]
      exact hhas1
    · rw [if_neg hfm]
      exact hhas1
  have hcells2 : ∀ c ∈ (if hasCol (zeroToNan t0) "formula" then
      (zeroToNan t0).map (fun c => if c.name = "formula" then
        Column.mk c.name (c.cells.map fmc) else c)
      else zeroToNan t0), c.name = "Temperature" → c.cells = qs.map Cell.num := by
    by_cases hfm : hasCol (zeroToNan t0) "formula" = true
    · rw [if_pos hfm]
      intro x hx hxn
      obtain ⟨c, hc, hfc⟩ := List.mem_map.mp hx
      by_cases hcf : c.name = "formula"
      · rw [← hfc] at hxn
        simp [hcf] at hxn
      · rw [← hfc] at hxn ⊢
        simp only [if_neg hcf] at hxn ⊢
        exact hcells1 c hc hxn
    · rw [if_neg hfm]
      exact hcells1
  cases kelvin with
  | true =>
    have htc : tempConvertDF true (if hasCol (zeroToNan t0) "formula" then
        (zeroToNan t0).map (fun c => if c.name = "formula" then
          Column.mk c.name (c.cells.map fmc) else c)
        else zeroToNan t0) = .ok (if hasCol (zeroToNan t0) "formula" then
        (zeroToNan t0).map (fun c => if c.name = "formula" then
          Column.mk c.name (c.cells.map fmc) else c)
        else zeroToNan t0) := tempConvertDF_true _
    have hpb : processBlock true fmc b = .ok (nm,
        (if hasCol (zeroToNan t0) "formula" then
        (zeroToNan t0).map (fun c => if c.name = "formula" then
          Column.mk c.name (c.cells.map fmc) else c)
        else zeroToNan t0)) := by
      simp only [processBlock, hb, hcsv, htc]
    constructor
    · rw [hpb]
      rfl
    · rw [hpb]
      show colCells (if hasCol (zeroToNan t0) "formula" then
        (zeroToNan t0).map (fun c => if c.name = "formula" then
          Column.mk c.name (c.cells.map fmc) else c)
        else zeroToNan t0) "Temperature" = some (qs.map Cell.num)
      exact colCells_of_all _ _ _ hhas2 hcells2
  | false =>
    have htc : tempConvertDF false (if hasCol (zeroToNan t0) "formula" then
        (zeroToNan t0).map (fun c => if c.name = "formula" then
          Column.mk c.name (c.cells.map fmc) else c)
        else zeroToNan t0) = .ok ((if hasCol (zeroToNan t0) "formula" then
        (zeroToNan t0).map (fun c => if c.name = "formula" then
          Column.mk c.name (c.cells.map fmc) else c)
        else zeroToNan t0).map (fun c =>
          if c.name = "Temperature" then
            Column.mk c.name ((qs.map (fun q => qSub q tempOffset)).map Cell.num)
          else c)) := tempConvertDF_false _ qs hhas2 hcells2
    have hpb : processBlock false fmc b = .ok (nm,
        ((if hasCol (zeroToNan t0) "formula" then
        (zeroToNan t0).map (fun c => if c.name = "formula" then
          Column.mk c.name (c.cells.map fmc) else c)
        else zeroToNan t0).map (fun c =>
          if c.name = "Temperature" then
            Column.mk c.name ((qs.map (fun q => qSub q tempOffset)).map Cell.num)
          else c))) := by
      simp only [processBlock, hb, hcsv, htc]
    constructor
    · rw [hpb]
      rfl
    · rw [hpb]
      show colCells ((if hasCol (zeroToNan t0) "formula" then
        (zeroToNan t0).map (fun c => if c.name = "formula" then
          Column.mk c.name (c.cells.map fmc) else c)
        else zeroToNan t0).map (fun c =>
          if c.name = "Temperature" then
            Column.mk c.name ((qs.map (fun q => qSub q tempOffset)).map Cell.num)
          else c)) "Temperature" =
        some ((qs.map (fun q => q - 273.15)).map Cell.num)
      rw [colCells_shifted _ qs hhas2, shiftFun_eq]

/-- C6: reading a well-formed table whose Temperature column holds the
numeric Kelvin values `qs` yields, with `kelvin=False`, the column
`qs - 273.15` entrywise, and with `kelvin=True` the unchanged `qs`; this
holds for `read_table` and for the per-phase tables of
`Phase_main_tbl.txt` (whose Kelvin values must be nonzero, since
`zero_to_nan` runs before the conversion there). -/
theorem c6_temperature_conversion :
    (∀ (fs : FS) (st : MeltsState) (path content : String) (df0 : DF) (qs : List ℚ),
      lookupFS fs path = some content →
      readCsv content 3 = .ok df0 →
      hasCol (dropAllNanCols df0) "Temperature" = true →
      (∀ c ∈ dropAllNanCols df0, c.name = "Temperature" → c.cells = qs.map Cell.num) →
      resultCol (readTableM fs st path 3) "Temperature" =
        some ((if st.kelvin then qs else qs.map (fun q => q - 273.15)).map Cell.num)) ∧
    (∀ (kelvin : Bool) (fmc : Cell → Cell) (b nm : String) (t0 : DF) (qs : List ℚ),
      blockPhaseName b = some nm →
      readCsv (blockBody b) 0 = .ok t0 →
      hasCol t0 "Temperature" = true →
      (∀ c ∈ t0, c.name = "Temperature" → c.cells = qs.map Cell.num) →
      (∀ q ∈ qs, q ≠ 0) →
      blockName (processBlock kelvin fmc b) = some nm ∧
      blockCol (processBlock kelvin fmc b) "Temperature" =
        some ((if kelvin then qs else qs.map (fun q => q - 273.15)).map Cell.num)) :=
  ⟨fun fs st path content df0 qs h1 h2 h3 h4 =>
readTable_temp_aux fs st path content df0 qs h1 h2 h3 h4,
   fun kelvin fmc b nm t0 qs hb hcsv hhas hcells hnz =>
    processBlock_temp_aux kelvin fmc b nm t0 qs hb hcsv hhas hcells hnz⟩

/-- C6 (witness): a file with Kelvin temperatures 300 and 310 read with
`kelvin=False` yields 300 − 273.15 and 310 − 273.15, and a phase block with
Kelvin temperature 400 read with `kelvin=True` keeps 400. -/
theorem c6_witness :
    resultCol (readTableM [("f", "Title: T\n\nx\nTemperature X\n300 1\n310 2")]
        (initState false) "f" 3) "Temperature" =
      some ((if (initState false).kelvin then [(300 : ℚ), 310]
        else [(300 : ℚ), 310].map (fun q => q - 273.15)).map Cell.num) ∧
    blockName (processBlock true cellId "Ol x\nTemperature\n400") = some "Ol" ∧
    blockCol (processBlock true cellId "Ol x\nTemperature\n400") "Temperature" =
      some ((if true then [(400 : ℚ)] else [(400 : ℚ)].map (fun q => q - 273.15)).map
        Cell.num) := by
  refine ⟨?_, ?_, ?_⟩
  · exact c6_temperature_conversion.1 _ (initState false) _
      "Title: T\n\nx\nTemperature X\n300 1\n310 2"
      [Column.mk "Temperature" [Cell.num 300, Cell.num 310],
        Column.mk "X" [Cell.num 1, Cell.num 2]]
      [(300 : ℚ), 310] rfl rfl (by decide) (by decide)
  · exact (c6_temperature_conversion.2 true cellId "Ol x\nTemperature\n400" "Ol"
      [Column.mk "Temperature" [Cell.num 400]] [(400 : ℚ)]
      rfl rfl (by decide) (by decide) (by decide)).1
  · exact (c6_temperature_conversion.2 true cellId "Ol x\nTemperature\n400" "Ol"
      [Column.mk "Temperature" [Cell.num 400]] [(400 : ℚ)]
      rfl rfl (by decide) (by decide) (by decide)).2

/-! ## Claim C7: `get_experiments_summary` keyed by titles -/

/-- C7: over a list of experiment directories the summary has exactly one
entry per distinct resolved title, and looking a title up returns the record
of the *last* directory in the list resolving to that title — an earlier
experiment with the same title is silently overwritten. -/
theorem c7_summary_titles (ds : List FS) (kelvin : Bool) (fmc : Cell → Cell) :
    (getExperimentsSummary (DirsArg.dirs ds) kelvin fmc).length =
      ((ds.map (summaryKey fmc kelvin)).dedup).length ∧
    ∀ t, dictLookup (getExperimentsSummary (DirsArg.dirs ds) kelvin fmc) t =
      (ds.reverse.find? (fun d => decide (summaryKey fmc kelvin d = t))).map
        (summaryVal fmc kelvin) := by
  have heq : getExperimentsSummary (DirsArg.dirs ds) kelvin fmc =
      ds.foldl (fun a d =>
        dictInsert a (summaryKey fmc kelvin d) (summaryVal fmc kelvin d)) [] := rfl
  have hlook : ∀ t, dictLookup (getExperimentsSummary (DirsArg.dirs ds) kelvin fmc) t =
      (ds.reverse.find? (fun d => decide (summaryKey fmc kelvin d = t))).map
        (summaryVal fmc kelvin) := by
    intro t
    rw [heq, foldl_insert_lookup (summaryKey fmc kelvin) (summaryVal fmc kelvin) ds [] t]
    cases hf : ds.reverse.find? (fun d => decide (summaryKey fmc kelvin d = t)) with
    | some d => rfl
    | none => rfl
  refine ⟨?_, hlook⟩
  have hnodup : (dictKeys (getExperimentsSummary (DirsArg.dirs ds) kelvin fmc)).Nodup := by
    rw [heq]
    exact foldl_insert_keys_nodup (summaryKey fmc kelvin) (summaryVal fmc kelvin) ds []
      (by simp [dictKeys])
  have hmem : ∀ t, t ∈ dictKeys (getExperimentsSummary (DirsArg.dirs ds) kelvin fmc) ↔
      t ∈ ds.map (summaryKey fmc kelvin) := by
    intro t
    rw [← not_iff_not, ← dictLookup_eq_none_iff, hlook t]
    simp only [Option.map_eq_none', List.find?_eq_none, List.mem_reverse,
      decide_eq_true_eq, List.mem_map, not_exists, not_and]
  have hperm : List.Perm
      (dictKeys (getExperimentsSummary (DirsArg.dirs ds) kelvin fmc))
      ((ds.map (summaryKey fmc kelvin)).dedup) := by
    rw [List.perm_ext_iff_of_nodup hnodup (List.nodup_dedup _)]
    intro t
    rw [hmem t, List.mem_dedup]
  have hlen : (getExperimentsSummary (DirsArg.dirs ds) kelvin fmc).length =
      (dictKeys (getExperimentsSummary (DirsArg.dirs ds) kelvin fmc)).length := by
    unfold dictKeys
    rw [List.length_map]
  rw [hlen, hperm.length_eq]

/-! ## Claim C8: reduced phase names -/

/-- Reading off `pyFind` when the underscore search misses. -/
theorem pyFind_underscore_none (p : String) (h : findSubIdx ['_'] p.data = none) :
    pyFind p "_" = -1 := by
  unfold pyFind
  rw [show ("_" : String).data = ['_'] from rfl, h]

/-- Reading off `pyFind` when the underscore search hits at index `n`. -/
theorem pyFind_underscore_some (p : String) (n : Nat)
    (h : findSubIdx ['_'] p.data = some n) : pyFind p "_" = (n : Int) := by
  unfold pyFind
  rw [show ("_" : String).data = ['_'] from rfl, h]

theorem reducePhase_nonpos (p : String) (h : ¬ pyFind p "_" > 0) :
    reducePhase p = p := by
  unfold reducePhase
  rw [if_neg h]

theorem reducePhase_pos (p : String) (h : pyFind p "_" > 0) :
    reducePhase p = String.mk (p.data.take (pyFind p "_").toNat) := by
  unfold reducePhase
  rw [if_pos h]

theorem takeWhile_cons_ne_underscore (c : Char) (cs : List Char) (hc : ¬ c = '_') :
    (c :: cs).takeWhile (fun x => x ≠ '_') = c :: cs.takeWhile (fun x => x ≠ '_') := by
  rw [List.takeWhile_cons, if_pos (by simp [hc])]

theorem isPrefixOf_underscore_false (c : Char) (cs : List Char) (hc : ¬ c = '_') :
    List.isPrefixOf ['_'] (c :: cs) = false := by
  show ('_' == c && List.isPrefixOf [] cs) = false
  have hbc : ('_' == c) = false := by
    cases hb : ('_' == c) with
    | true => exact absurd (beq_iff_eq.mp hb).symm hc
    | false => rfl
  rw [hbc]
  rfl

theorem isPrefixOf_underscore_true (cs : List Char) :
    List.isPrefixOf ['_'] ('_' :: cs) = true := by
  show ('_' == '_' && List.isPrefixOf [] cs) = true
  simp

theorem findSubIdx_underscore_cons (c : Char) (cs : List Char) (hc : ¬ c = '_') :
    findSubIdx ['_'] (c :: cs) = (findSubIdx ['_'] cs).map (fun n => n + 1) := by
  show (if List.isPrefixOf ['_'] (c :: cs) = true then some 0
    else (findSubIdx ['_'] cs).map (fun n => n + 1)) = _
  rw [if_neg (by intro hh; rw [isPrefixOf_underscore_false c cs hc] at hh; cases hh)]

/-- `findSubIdx` misses: no underscore, so `takeWhile` keeps everything. -/
theorem findSub_none : ∀ cs : List Char, findSubIdx ['_'] cs = none →
    cs.takeWhile (fun x => x ≠ '_') = cs := by
  intro cs
  induction cs with
  | nil => intro _; rfl
  | cons c cs ih =>
    intro h
    by_cases hc : c = '_'
    · subst hc
      rw [show findSubIdx ['_'] ('_' :: cs) =
        (if List.isPrefixOf ['_'] ('_' :: cs) = true then some 0
          else (findSubIdx ['_'] cs).map (fun n => n + 1)) from rfl,
        if_pos (isPrefixOf_underscore_true cs)] at h
      cases h
    · rw [findSubIdx_underscore_cons c cs hc] at h
      have hrest : findSubIdx ['_'] cs = none := Option.map_eq_none'.mp h
      rw [takeWhile_cons_ne_underscore c cs hc, ih hrest]

/-- `findSubIdx` hits at `n`: the prefix before `n` is underscore-free, so
`take n` and `takeWhile` agree. -/
theorem findSub_some : ∀ (cs : List Char) (n : Nat), findSubIdx ['_'] cs = some n →
    cs.take n = cs.takeWhile (fun x => x ≠ '_') := by
  intro cs
  induction cs with
  | nil =>
    intro n h
    rw [show findSubIdx ['_'] ([] : List Char) =
      (if List.isPrefixOf ['_'] ([] : List Char) = true then some 0 else none) from rfl] at h
    rw [if_neg (by intro hh; cases hh)] at h
    cases h
  | cons c cs ih =>
    intro n h
    by_cases hc : c = '_'
    · subst hc
      rw [show findSubIdx ['_'] ('_' :: cs) =
        (if List.isPrefixOf ['_'] ('_' :: cs) = true then some 0
          else (findSubIdx ['_'] cs).map (fun n => n + 1)) from rfl,
        if_pos (isPrefixOf_underscore_true cs)] at h
      cases h
      rw [List.take_zero, List.takeWhile_cons, if_neg (by simp)]
    · rw [findSubIdx_underscore_cons c cs hc] at h
      obtain ⟨m, hm, hn⟩ := Option.map_eq_some'.mp h
      subst hn
      rw [List.take_succ_cons, takeWhile_cons_ne_underscore c cs hc, ih m hm]

/-- The head-underscore case of `specReduceAmended`. -/
theorem specReduceAmended_underscore (cs : List Char) :
    specReduceAmended (String.mk ('_' :: cs)) = String.mk ('_' :: cs) := rfl

/-- The other case of `specReduceAmended`. -/
theorem specReduceAmended_ne_underscore (c : Char) (cs : List Char) (hc : ¬ c = '_') :
    specReduceAmended (String.mk (c :: cs)) =
      String.mk ((c :: cs).takeWhile (fun x => x ≠ '_')) := by
  unfold specReduceAmended
  split
  · rename_i heq
    rw [show (String.mk (c :: cs)).data = c :: cs from rfl] at heq
    cases heq
    exact absurd rfl hc
  · rfl

/-- The source reduction `i[: i.find("_")] if i.find("_") > 0 else i` agrees
with the amended description: truncate at the first underscore only when it
sits at a positive index. -/
theorem reducePhase_eq_spec (p : String) : reducePhase p = specReduceAmended p := by
  obtain ⟨cs⟩ := p
  cases cs with
  | nil => rfl
  | cons c cs =>
    by_cases hc : c = '_'
    · subst hc
      have hfind : findSubIdx ['_'] (String.mk ('_' :: cs)).data = some 0 := by
        show findSubIdx ['_'] ('_' :: cs) = some 0
        rw [show findSubIdx ['_'] ('_' :: cs) =
          (if List.isPrefixOf ['_'] ('_' :: cs) = true then some 0
            else (findSubIdx ['_'] cs).map (fun n => n + 1)) from rfl,
          if_pos (isPrefixOf_underscore_true cs)]
      have h1 : reducePhase (String.mk ('_' :: cs)) = String.mk ('_' :: cs) := by
        apply reducePhase_nonpos
        rw [pyFind_underscore_some _ 0 hfind]
        decide
      rw [h1, specReduceAmended_underscore]
    · cases hf : findSubIdx ['_'] cs with
      | none =>
        have hfind : findSubIdx ['_'] (String.mk (c :: cs)).data = none := by
          show findSubIdx ['_'] (c :: cs) = none
          rw [findSubIdx_underscore_cons c cs hc, hf]
          rfl
        have h1 : reducePhase (String.mk (c :: cs)) = String.mk (c :: cs) := by
          apply reducePhase_nonpos
          rw [pyFind_underscore_none _ hfind]
          decide
        rw [h1, specReduceAmended_ne_underscore c cs hc,
          takeWhile_cons_ne_underscore c cs hc, findSub_none cs hf]
      | some m =>
        have hfind : findSubIdx ['_'] (String.mk (c :: cs)).data = some (m + 1) := by
          show findSubIdx ['_'] (c :: cs) = some (m + 1)
          rw [findSubIdx_underscore_cons c cs hc, hf]
          rfl
        have hpf : pyFind (String.mk (c :: cs)) "_" = ((m + 1 : Nat) : Int) :=
          pyFind_underscore_some _ (m + 1) hfind
        have h1 : reducePhase (String.mk (c :: cs)) =
            String.mk ((c :: cs).take (m + 1)) := by
          rw [reducePhase_pos _ (by rw [hpf]; exact_mod_cast Nat.succ_pos m), hpf]
          rw [show ((m + 1 : Nat) : Int).toNat = m + 1 from rfl]
        rw [h1, specReduceAmended_ne_underscore c cs hc,
          List.take_succ_cons, takeWhile_cons_ne_underscore c cs hc,
          findSub_some cs m hf]

/-- C8 (counterexample): a phase name whose first character is an underscore
is passed through unchanged, not truncated: with phase name `_x` the summary
phase set is `{"_x"}`, while the claim demands the truncation `""`, which is
absent. -/
theorem c8_counterexample :
    "_x" ∈ (meltsOutput cellId
        [("Phase_mass_tbl.txt", "Title: T\n\nx\nPressure Temperature _x\n1 2 3")]
        true).phasenames ∧
    (dictLookup (getExperimentsSummary (DirsArg.dirs
        [[("Phase_mass_tbl.txt", "Title: T\n\nx\nPressure Temperature _x\n1 2 3")]])
        true cellId) (some "T")).map SummaryEntry.phases = some ["_x"] ∧
    truncAtUnderscore "_x" = "" ∧
    ("" : String) ∉ (["_x"] : List String) := by
  exact ⟨by decide, by decide, rfl, by decide⟩

/-- C8 (amended): every summary entry's reduced phase set is obtained from
the experiment's phase names by truncating each at its first underscore when
that underscore is at a positive index, and passing the name through
unchanged when it has no underscore or starts with one. -/
theorem c8_reduced_phase_names (ds : List FS) (kelvin : Bool) (fmc : Cell → Cell)
    (t : Option String) (e : SummaryEntry)
    (h : dictLookup (getExperimentsSummary (DirsArg.dirs ds) kelvin fmc) t = some e) :
    e.phases = (e.output.phasenames.map specReduceAmended).dedup := by
  have heq : getExperimentsSummary (DirsArg.dirs ds) kelvin fmc =
      ds.foldl (fun a d =>
        dictInsert a (summaryKey fmc kelvin d) (summaryVal fmc kelvin d)) [] := rfl
  rw [heq, foldl_insert_lookup (summaryKey fmc kelvin) (summaryVal fmc kelvin) ds [] t] at h
  cases hf : ds.reverse.find? (fun d => decide (summaryKey fmc kelvin d = t)) with
  | none => rw [hf] at h; cases h
  | some d =>
    rw [hf] at h
    have he : e = summaryVal fmc kelvin d := by
      have : some (summaryVal fmc kelvin d) = some e := h
      cases this
      rfl
    subst he
    show ((meltsOutput fmc d kelvin).phasenames.map reducePhase).dedup =
      ((meltsOutput fmc d kelvin).phasenames.map specReduceAmended).dedup
    have hfun : (meltsOutput fmc d kelvin).phasenames.map reducePhase =
        (meltsOutput fmc d kelvin).phasenames.map specReduceAmended := by
      apply List.map_congr_left
      intro a _
      exact reducePhase_eq_spec a
    rw [hfun]

/-- C8 (witness): the amended theorem applied to one experiment whose phase
table has the column `Aug_1`: its summary entry satisfies the reduction law
(with `Aug_1` reduced to `Aug`). -/
theorem c8_witness :
    (dictLookup (getExperimentsSummary (DirsArg.dirs
        [[("Phase_mass_tbl.txt", "Title: U\n\nx\nPressure Aug_1\n1 2")]])
        true cellId) (some "U")).map
      (fun e => decide (e.phases = (e.output.phasenames.map specReduceAmended).dedup))
      = some true := by
  cases hq : dictLookup (getExperimentsSummary (DirsArg.dirs
      [[("Phase_mass_tbl.txt", "Title: U\n\nx\nPressure Aug_1\n1 2")]])
      true cellId) (some "U") with
  | none => exact absurd hq (by decide)
  | some e =>
    have hthm := c8_reduced_phase_names
      [[("Phase_mass_tbl.txt", "Title: U\n\nx\nPressure Aug_1\n1 2")]]
      true cellId (some "U") e hq
    simp only [Option.map_some']
    exact congrArg some (decide_eq_true hthm)

/-! ## Claim C10: `write_summary_phaselist` -/

/-- Computing `max([len(name) for name in summary])` succeeds exactly on
summaries whose keys are all strings, giving one length per entry. -/
theorem mapM_lens (s : Summary) (h : ∀ p ∈ s, (p.1).isSome = true) :
    ∃ lens : List Nat, s.mapM (fun p =>
      match p.1 with
      | some n => Except.ok n.length
      | none => Except.error Err.typeError) = .ok lens ∧ lens.length = s.length := by
  induction s with
  | nil => exact ⟨[], rfl, rfl⟩
  | cons p s ih =>
    obtain ⟨lens, hl, hlen⟩ := ih (fun x hx => h x (List.mem_cons_of_mem p hx))
    obtain ⟨n, hn⟩ := Option.isSome_iff_exists.mp (h p (List.mem_cons_self p s))
    refine ⟨n.length :: lens, ?_, by simp [hlen]⟩
    rw [List.mapM_cons, hn, hl]
    rfl

/-- C10: `write_summary_phaselist` needs `dir` even when a summary is
supplied — with a summary and `dir=None` it raises a `TypeError` when
forming `dir / filename`; with an empty summary it raises a `ValueError`
at `max([...])` whatever `dir` is; and it completes exactly under the
precondition that `dir` is a path and the summary is a non-empty mapping
with string keys. -/
theorem c10_write_summary_phaselist :
    (∀ (fmc : Cell → Cell) (e : SummaryEntry) (filename : String),
      writeSummaryPhaselist fmc none (some [(some "T", e)]) filename =
        .error Err.typeError) ∧
    (∀ (fmc : Cell → Cell) (dirOpt : Option (List (String × FS))) (filename : String),
      writeSummaryPhaselist fmc dirOpt (some []) filename = .error Err.valueError) ∧
    (∀ (fmc : Cell → Cell) (parent : List (String × FS)) (summary : Summary)
      (filename : String), summary ≠ [] →
      (∀ p ∈ summary, (p.1).isSome = true) →
      exceptIsOk (writeSummaryPhaselist fmc (some parent) (some summary) filename)
        = true) := by
  refine ⟨?_, ?_, ?_⟩
  · intro fmc e filename
    rfl
  · intro fmc dirOpt filename
    rfl
  · intro fmc parent summary filename hne hkeys
    obtain ⟨lens, hl, hlen⟩ := mapM_lens summary hkeys
    show exceptIsOk (match summary.mapM (fun p =>
        match p.1 with
        | some n => Except.ok n.length
        | none => Except.error Err.typeError) with
      | .error e => (.error e : Except Err String)
      | .ok lens =>
        match lens with
        | [] => .error .valueError
        | l :: ls =>
          let mnl := ls.foldl max l
          let _ := filename
          .ok (String.intercalate "\n" (summary.map (fun p =>
            (p.1.getD "") ++ padSpaces (mnl - (p.1.getD "").length + 2)
              ++ String.intercalate ", " p.2.phases)))) = true
    rw [hl]
    cases hlc : lens with
    | nil =>
      exfalso
      rw [hlc] at hlen
      exact hne (List.length_eq_zero.mp hlen.symm)
    | cons l ls => rfl

/-- C10 (witness): a one-entry summary with a string key and a path for
`dir` lets the call complete. -/
theorem c10_witness :
    exceptIsOk (writeSummaryPhaselist cellId (some [])
      (some [(some "T", SummaryEntry.mk ["Ol"] (initState true))])
      "phaselist.txt") = true :=
  c10_write_summary_phaselist.2.2 cellId []
    [(some "T", SummaryEntry.mk ["Ol"] (initState true))] "phaselist.txt"
    (by decide) (by decide)

end Melts
